import Mathlib
/-!
Verification of the ccutils specification against the repository source.
The development shallowly embeds the Python modules under scrutiny:
* `src/ccutils/parsers/claude_ai.py` — the Claude.ai export-to-logline
  normalizer (`convert_content_block`, `convert_message_to_logline`,
  `convert_conversation_to_loglines`, `load_export_files`,
  `parse_claude_ai_export`).
* `src/ccutils/parsers/schema_inspector.py` — the privacy-safe structural
  schema inspector (`classify_string`, `merge_string_schemas`,
  `merge_object_schemas`, `infer_schema`).
* `src/claude_code_transcripts/star_schema` — only the package export list and
  its tests are in the repository; the implementations of
  `generate_dimension_key` and `run_star_schema_etl` are modelled from the
  specification where noted.
Python/JSON values are embedded as the inductive `JVal`.  Python runtime
exceptions (AttributeError on `.get` of a non-dict, TypeError on iterating a
non-iterable, KeyError on indexing) are modelled by `Option`: a `none` result
means the Python code raises.  File I/O in `load_export_files` is modelled by
an environment function `String → FileState` describing, for each well-known
filename, whether the file is absent, present but not valid JSON (carrying the
message of the JSON parser's exception, which the loader propagates
unchanged), or present and parsed to a value.
-/
/-- A Python/JSON value.  `jfloat` abstracts the payload of Python floats:
no code path under scrutiny inspects a float's numeric value (the inspector
maps every float to the bare type tag "number"), so the payload is dropped.
Python `bool` is a distinct constructor from `jint` because the source checks
`isinstance(value, bool)` before `isinstance(value, int)`. -/

inductive JVal where
  | jnull
  | jbool (b : Bool)
  | jint (n : Int)
  | jfloat
  | jstr (s : String)
  | jarr (items : List JVal)
  | jobj (fields : List (String × JVal))

namespace JVal

/-- Python equality of a value against a string literal: `x == "s"` is true
exactly when `x` is the equal string; comparison with any other type is
`False` (never an error). -/
def eqStr : JVal → String → Bool
  | .jstr t, s => t == s
  | _, _ => false

/-- Python `dict` lookup with default: `fields.get(k, d)`.  Returns the stored
value (which may be `jnull`) when the key is present, the default otherwise.
Association lists keep insertion order, matching Python 3.7+ dicts. -/
def lookupD (fields : List (String × JVal)) (k : String) (d : JVal) : JVal :=
  (fields.lookup k).getD d

/-- Convenience accessor for theorem statements: `j.get(k, d)` when `j` is an
object, the default otherwise. -/
def getD (j : JVal) (k : String) (d : JVal) : JVal :=
  match j with
  | .jobj fields => lookupD fields k d
  | _ => d

/-- Python attribute access `j.get(...)` requires `j` to be a dict; any other
value raises AttributeError, modelled as `none`. -/
def asDict : JVal → Option (List (String × JVal))
  | .jobj fields => some fields
  | _ => none

/-- Test of `isinstance(j, dict)`. -/
def isObj : JVal → Bool
  | .jobj _ => true
  | _ => false

/-- Python iteration `for x in j`: lists yield their elements, strings yield
their characters as one-character strings, dicts yield their keys; `None`,
booleans and numbers are not iterable (TypeError, modelled as `none`). -/
def pyIter : JVal → Option (List JVal)
  | .jarr items => some items
  | .jstr s => some (s.data.map fun c => .jstr (String.mk [c]))
  | .jobj fields => some (fields.map fun kv => .jstr kv.1)
  | _ => none

/-- Python truthiness.  `jfloat` is treated as truthy: the only use under
scrutiny is `if block.get("summaries")`, where the value is a list in every
export, so the float-zero corner is never exercised. -/
def truthy : JVal → Bool
  | .jnull => false
  | .jbool b => b
  | .jint n => decide (n ≠ 0)
  | .jfloat => true
  | .jstr s => decide (s ≠ "")
  | .jarr [] => false
  | .jarr (_ :: _) => true
  | .jobj [] => false
  | .jobj (_ :: _) => true

/-- Python dict assignment `d[k] = v`: replaces the first binding of `k`
in place (keeping its position), or appends a new binding at the end. -/
def assocSet : List (String × JVal) → String → JVal → List (String × JVal)
  | [], k, v => [(k, v)]
  | (k', v') :: rest, k, v =>
      if k' = k then (k, v) :: rest else (k', v') :: assocSet rest k v

/-- Python item assignment `j[k] = v` on a dict; any other receiver raises
(TypeError), modelled as `none`. -/
def setKey : JVal → String → JVal → Option JVal
  | .jobj fields, k, v => some (.jobj (assocSet fields k v))
  | _, _, _ => none

/-- Python item access `j[k]` on a dict: KeyError (modelled as `none`) when
the key is absent; non-dicts also fail. -/
def getKey : JVal → String → Option JVal
  | .jobj fields, k => fields.lookup k
  | _, _ => none

end JVal

open JVal

/-- Embedding of `convert_content_block` (claude_ai.py lines 32-80).  The
function is only ever applied to dicts (every call site guards with
`isinstance(block, dict)`), so reading fields through `getD` — which yields
the default on a non-dict — is exact at all reachable inputs.  The unknown
branch rebuilds the dict as `{"type": block_type, **rest-without-"type"}`. -/

def convert_content_block (block : JVal) : JVal :=
  let block_type := block.getD "type" .jnull
  if block_type.eqStr "text" then
    .jobj [("type", .jstr "text"), ("text", block.getD "text" (.jstr ""))]
  else if block_type.eqStr "thinking" then
    let base := [("type", .jstr "thinking"),
                 ("thinking", block.getD "thinking" (.jstr ""))]
    if (block.getD "summaries" .jnull).truthy then
      .jobj (base ++ [("_summaries", block.getD "summaries" .jnull)])
    else .jobj base
  else if block_type.eqStr "tool_use" then
    .jobj [("type", .jstr "tool_use"), ("id", block.getD "id" .jnull),
           ("name", block.getD "name" (.jstr "")),
           ("input", block.getD "input" (.jobj []))]
  else if block_type.eqStr "tool_result" then
    .jobj [("type", .jstr "tool_result"),
           ("tool_use_id", block.getD "tool_use_id" .jnull),
           ("content", block.getD "content" (.jstr "")),
           ("is_error", block.getD "is_error" (.jbool false))]
  else
    .jobj (("type", block_type) ::
      ((match block with | .jobj fields => fields | _ => []).filter
        fun kv => kv.1 ≠ "type"))

/-- The logline dict literal returned by `convert_message_to_logline`
(claude_ai.py lines 103-112), named so that theorems can speak about its
shape. -/

def mkLogline (msg_type timestamp session_id uuid : JVal)
    (content_blocks : List JVal) : JVal :=
  .jobj [("type", msg_type), ("timestamp", timestamp),
         ("sessionId", session_id), ("uuid", uuid),
         ("message", .jobj [("role", msg_type),
                            ("content", .jarr content_blocks)])]

/-- Embedding of `convert_message_to_logline` (claude_ai.py lines 83-112).
`session_id` is kept as an arbitrary value, exactly as Python threads
`conversation.get("uuid", "")` through.  A `none` result models a raised
exception: `message.get` on a non-dict (AttributeError) or iteration of a
non-iterable `content` (TypeError). -/

def convert_message_to_logline (message : JVal) (session_id : JVal) :
    Option JVal := do
  let mf ← message.asDict
  let sender := lookupD mf "sender" (.jstr "")
  let msg_type := if sender.eqStr "human" then JVal.jstr "user" else sender
  let items ← pyIter (lookupD mf "content" (.jarr []))
  let content_blocks := items.filterMap fun b =>
    if b.isObj then some (convert_content_block b) else none
  pure (mkLogline msg_type (lookupD mf "created_at" (.jstr ""))
    session_id (lookupD mf "uuid" (.jstr "")) content_blocks)

/-- Sequential per-element processing of a Python `for` loop that appends one
result per element and lets exceptions propagate: `some` collects the results
in order, `none` as soon as one element raises.  (A direct structural
formulation of monadic `mapM` over `Option`, kept first-order so its
equations are definitional.) -/

def mapMo {α β : Type} (f : α → Option β) : List α → Option (List β)
  | [] => some []
  | a :: as =>
    match f a with
    | none => none
    | some b =>
      match mapMo f as with
      | none => none
      | some bs => some (b :: bs)

/-- Embedding of `convert_conversation_to_loglines` (claude_ai.py lines
115-131): fixes `sessionId` to the conversation's `uuid` (default `""`) and
maps the messages in order; a `none` anywhere models the Python exception
aborting the loop with no return value. -/

def convert_conversation_to_loglines (conversation : JVal) :
    Option (List JVal) := do
  let cf ← conversation.asDict
  let session_id := lookupD cf "uuid" (.jstr "")
  let msgs ← pyIter (lookupD cf "chat_messages" (.jarr []))
  mapMo (fun m => convert_message_to_logline m session_id) msgs

/-- Outcome of `json.load` on a present file: either a parsed value or the
JSON parser's exception with its message.  The loader under scrutiny does not
catch or wrap that exception, so the message reaches the caller verbatim. -/

inductive ParseOutcome where
  | ok (v : JVal)
  | badJson (msg : String)

/-- State of one filename inside the export directory. -/

inductive FileState where
  | absent
  | file (outcome : ParseOutcome)

/-- The exceptions `load_export_files` can surface: the FileNotFoundError it
raises itself (with the message it formats), or a propagated
json.JSONDecodeError. -/

inductive LoadError where
  | fileNotFound (msg : String)
  | jsonDecode (msg : String)

/-- The dict returned by `load_export_files` (claude_ai.py lines 167-172). -/

structure ExportBundle where
  conversations : JVal
  projects : JVal
  users : JVal
  memories : JVal

/-- Embedding of the inner `load_optional` closure (claude_ai.py lines
160-165): an absent file yields `[]`; a present file is `json.load`ed, whose
failure propagates. -/

def load_optional (dir : String → FileState) (filename : String) :
    Except LoadError JVal :=
  match dir filename with
  | .absent => .ok (.jarr [])
  | .file (.ok v) => .ok v
  | .file (.badJson m) => .error (.jsonDecode m)

/-- The FileNotFoundError message `load_export_files` formats (claude_ai.py
lines 151-154): the f-string interpolating the offending directory path. -/

def missing_conversations_msg (export_path : String) : String :=
  "conversations.json not found in " ++ export_path ++
    ". This doesn't appear to be a valid Claude.ai export."

/-- Embedding of `load_export_files` (claude_ai.py lines 134-172) over a
directory environment `dir` mapping filenames to their state.
`conversations.json` is required: its absence raises FileNotFoundError with
the exact message formatted in the source; a present file that fails JSON
parsing propagates the parser's exception unchanged. -/

def load_export_files (dir : String → FileState) (export_path : String) :
    Except LoadError ExportBundle := do
  let conversations ←
    match dir "conversations.json" with
    | .absent => .error (.fileNotFound (missing_conversations_msg export_path))
    | .file (.badJson m) => .error (.jsonDecode m)
    | .file (.ok v) => .ok v
  let projects ← load_optional dir "projects.json"
  let users ← load_optional dir "users.json"
  let memories ← load_optional dir "memories.json"
  pure ⟨conversations, projects, users, memories⟩

/-- Embedding of the in-place thinking filter applied per logline inside
`parse_claude_ai_export` (claude_ai.py lines 211-215):
reads `logline.get("message", {}).get("content", [])`, keeps the blocks whose
`"type"` is not `"thinking"`, and assigns the result back through
`logline["message"]["content"]`.  A `none` models the Python exceptions on
malformed receivers (iterating a non-iterable content, `block.get` on a
non-dict, KeyError on a logline without "message") — none of which occur on
loglines built by the normalizer. -/

def filter_thinking_logline (logline : JVal) : Option JVal := do
  let content := (logline.getD "message" (.jobj [])).getD "content" (.jarr [])
  let items ← pyIter content
  let kept ← mapMo (fun b => do
    let bf ← b.asDict
    pure (b, !(lookupD bf "type" .jnull).eqStr "thinking")) items
  let msg ← logline.getKey "message"
  let msg' ← msg.setKey "content" (.jarr ((kept.filter fun p => p.2).map
    fun p => p.1))
  logline.setKey "message" msg'

/-- Python membership `conv_id in conversation_ids` where the allowlist is a
`list[str]`: true exactly when `conv_id` is one of the strings. -/

def jvalMemStrList (v : JVal) (ids : List String) : Bool :=
  match v with
  | .jstr s => ids.contains s
  | _ => false

/-- The per-conversation body of the loop in `parse_claude_ai_export`
(claude_ai.py lines 207-215): normalize the conversation and, when thinking
blocks are excluded, rewrite every logline's content through the in-place
filter. -/

def handle_conversation (include_thinking : Bool) (conversation : JVal) :
    Option (List JVal) := do
  let loglines ← convert_conversation_to_loglines conversation
  if include_thinking then pure loglines
  else mapMo filter_thinking_logline loglines

/-- The conversation loop of `parse_claude_ai_export` (claude_ai.py lines
200-217), written as recursion over the conversation list with the
accumulated loglines (`all_loglines`) threaded through.  Per conversation:
read `uuid` (requires a dict, AttributeError otherwise), skip — `continue` in
the source — when an allowlist is given and the id is not a member, otherwise
run the body and extend the accumulator. -/

def process_conversations (conversation_ids : Option (List String))
    (include_thinking : Bool) :
    List JVal → List JVal → Option (List JVal)
  | [], acc => some acc
  | conversation :: rest, acc =>
    match conversation.asDict with
    | none => none
    | some cf =>
      let conv_id := lookupD cf "uuid" (.jstr "")
      let skip : Bool :=
        match conversation_ids with
        | some ids => !jvalMemStrList conv_id ids
        | none => false
      if skip then
        process_conversations conversation_ids include_thinking rest acc
      else
        match handle_conversation include_thinking conversation with
        | none => none
        | some loglines =>
            process_conversations conversation_ids include_thinking rest
              (acc ++ loglines)

/-- The `{loglines, _metadata}` envelope returned by `parse_claude_ai_export`
(claude_ai.py lines 219-232). -/

structure ParseResult where
  loglines : List JVal
  metadata_source : String
  metadata_export_path : String
  metadata_projects : JVal
  metadata_memories : JVal
  metadata_users : JVal
  metadata_conversation_count : Nat

/-- Embedding of `parse_claude_ai_export` (claude_ai.py lines 175-232) given
the already-loaded bundle: iterate the conversations (raising on a
non-iterable value), run the loop, and assemble the envelope.
`conversation_count` is `len(data["conversations"])`, the raw pre-filter
count. -/

def parse_from_bundle (data : ExportBundle) (export_path : String)
    (conversation_ids : Option (List String)) (include_thinking : Bool) :
    Option ParseResult := do
  let convs ← pyIter data.conversations
  let all_loglines ← process_conversations conversation_ids include_thinking
    convs []
  pure ⟨all_loglines, "claude_ai_export", export_path, data.projects,
    data.memories, data.users, convs.length⟩

/-- Embedding of `parse_claude_ai_export` end to end: load the export
directory, then orchestrate.  A load failure or a Python exception during
normalization both yield `none` (no result). -/

def parse_claude_ai_export (dir : String → FileState) (export_path : String)
    (conversation_ids : Option (List String)) (include_thinking : Bool) :
    Option ParseResult :=
  match load_export_files dir export_path with
  | .error _ => none
  | .ok data => parse_from_bundle data export_path conversation_ids
      include_thinking

/-! ### Spec-side accessors and the thinking-filter specification -/

/-- Whether a value is a Python `str`. -/

def JVal.isStr : JVal → Bool
  | .jstr _ => true
  | _ => false

/-- The `type` field of a logline, as the spec reads it. -/

def typeOf (l : JVal) : JVal := l.getD "type" .jnull

/-- The `message.role` field of a logline, as the spec reads it. -/

def roleOf (l : JVal) : JVal := (l.getD "message" .jnull).getD "role" .jnull

/-- The `message.content` sequence of a logline, as the spec reads it. -/

def contentOf (l : JVal) : List JVal :=
  match (l.getD "message" (.jobj [])).getD "content" (.jarr []) with
  | .jarr blocks => blocks
  | _ => []

/-- Defined from the specification's words for the "exclude thinking" policy:
remove from a logline's content sequence exactly the blocks whose `type`
equals "thinking", keeping every other block in its original relative order
and leaving all other fields of the logline untouched. -/

def strip_thinking_spec (l : JVal) : JVal :=
  let stripContent : JVal → JVal := fun c =>
    match c with
    | .jarr blocks =>
        .jarr (blocks.filter fun b => !(b.getD "type" .jnull).eqStr "thinking")
    | other => other
  let stripMsg : JVal → JVal := fun m =>
    match m with
    | .jobj mf => .jobj (mf.map fun kv =>
        if kv.1 = "content" then (kv.1, stripContent kv.2) else kv)
    | other => other
  match l with
  | .jobj fields => .jobj (fields.map fun kv =>
      if kv.1 = "message" then (kv.1, stripMsg kv.2) else kv)
  | other => other

/-- The conversation id read by the orchestrator's allowlist check. -/

def convIdOf (c : JVal) : JVal := c.getD "uuid" (.jstr "")

/-- Whether a conversation passes the optional allowlist filter. -/

def passesFilter (ids : Option (List String)) (c : JVal) : Bool :=
  match ids with
  | none => true
  | some l => jvalMemStrList (convIdOf c) l

/-- Number of elements of a conversation's `chat_messages` sequence (zero for
shapes on which the parser would raise; those are excluded by the success
hypotheses of the theorems below). -/

def chat_messages_count (c : JVal) : Nat :=
  ((pyIter (c.getD "chat_messages" (.jarr []))).getD []).length

/-- The spec-side count for C1: total `chat_messages` length over the
conversations passing the allowlist filter. -/

def included_message_count (convs : List JVal) (ids : Option (List String)) :
    Nat :=
  ((convs.filter (passesFilter ids)).map chat_messages_count).sum

/-- Loglines produced by the normalizer: the literal dict shape with the
session id in place and every content block a dict. -/
def GoodLogline (sid : JVal) (l : JVal) : Prop :=
  ∃ t ts u bs, l = mkLogline t ts sid u bs ∧ ∀ b ∈ bs, b.isObj = true

/-- Example raw message: a human message with one text block. -/
def exMsg1 : JVal :=
  .jobj [("uuid", .jstr "m1"), ("sender", .jstr "human"),
         ("created_at", .jstr "2026-01-06T21:03:55Z"),
         ("content", .jarr [.jobj [("type", .jstr "text"),
                                   ("text", .jstr "hi")]])]

/-- Example raw message: an assistant message with a thinking block and a
text block; `uuid` and `created_at` are absent. -/

def exMsg2 : JVal :=
  .jobj [("sender", .jstr "assistant"),
         ("content", .jarr [.jobj [("type", .jstr "thinking"),
                                   ("thinking", .jstr "hmm")],
                            .jobj [("type", .jstr "text"),
                                   ("text", .jstr "yo")]])]

/-- Example conversation holding the two messages. -/

def exConv : JVal :=
  .jobj [("uuid", .jstr "c1"), ("chat_messages", .jarr [exMsg1, exMsg2])]

/-- Example export directory: a valid conversations.json, nothing else. -/

def exDir : String → FileState := fun n =>
  if n = "conversations.json" then .file (.ok (.jarr [exConv])) else .absent

/-- The bundle the loader produces for `exDir`. -/

def exData : ExportBundle := ⟨.jarr [exConv], .jarr [], .jarr [], .jarr []⟩

/-- The loglines of the example, as the normalizer emits them. -/

def exL1 : JVal :=
  mkLogline (.jstr "user") (.jstr "2026-01-06T21:03:55Z") (.jstr "c1")
    (.jstr "m1") [.jobj [("type", .jstr "text"), ("text", .jstr "hi")]]

def exL2 : JVal :=
  mkLogline (.jstr "assistant") (.jstr "") (.jstr "c1") (.jstr "")
    [.jobj [("type", .jstr "thinking"), ("thinking", .jstr "hmm")],
     .jobj [("type", .jstr "text"), ("text", .jstr "yo")]]

/-- The parse result on the example with thinking included. -/

def exOutT : ParseResult :=
  (parse_claude_ai_export exDir "exp" none true).getD
    ⟨[], "", "", .jnull, .jnull, .jnull, 0⟩

/-- The parse result on the example with thinking excluded. -/

def exOutF : ParseResult :=
  (parse_claude_ai_export exDir "exp" none false).getD
    ⟨[], "", "", .jnull, .jnull, .jnull, 0⟩

/-- Substring test: whether `needle` occurs contiguously inside `hay`. -/
def strContains (hay needle : String) : Bool :=
  (List.range (hay.data.length + 1)).any fun i =>
    needle.data.isPrefixOf (hay.data.drop i)

/-- Example directory whose conversations.json is present but not valid
JSON; the recorded message is the one CPython's json module raises for a
file whose first byte is not a JSON value. -/

def exBadDir : String → FileState := fun n =>
  if n = "conversations.json" then
    .file (.badJson "Expecting value: line 1 column 1 (char 0)")
  else .absent

/-! ### Embedding of the structural schema inspector (schema_inspector.py) -/

mutual

/-- Boolean equality on embedded values (used only to realize Python's
`Counter`/`set` grouping inside the inspector's definitions; no theorem
relies on its relation to propositional equality). -/
def jvalBeq : JVal → JVal → Bool
  | .jnull, .jnull => true
  | .jbool a, .jbool b => a == b
  | .jint a, .jint b => a == b
  | .jfloat, .jfloat => true
  | .jstr a, .jstr b => a == b
  | .jarr as, .jarr bs => jvalListBeq as bs
  | .jobj fs, .jobj gs => jvalFieldsBeq fs gs
  | _, _ => false

/-- Elementwise `jvalBeq` on lists. -/
def jvalListBeq : List JVal → List JVal → Bool
  | [], [] => true
  | a :: as, b :: bs => jvalBeq a b && jvalListBeq as bs
  | _, _ => false

/-- Elementwise `jvalBeq` on field lists. -/
def jvalFieldsBeq : List (String × JVal) → List (String × JVal) → Bool
  | [], [] => true
  | (k, v) :: fs, (k', v') :: gs =>
      k == k' && jvalBeq v v' && jvalFieldsBeq fs gs
  | _, _ => false

end
/-- Python `collections.Counter` over a value sequence: counts in
first-encounter order (the iteration order of a Python 3.7+ Counter). -/

def countOcc (xs : List JVal) : List (JVal × Nat) :=
  xs.foldl (fun acc x =>
    if acc.any fun p => jvalBeq p.1 x then
      acc.map fun p => if jvalBeq p.1 x then (p.1, p.2 + 1) else p
    else acc ++ [(x, 1)]) []

/-- Python `set(...)` keyed deduplication, in first-encounter order (the
subsequent `sorted(...)` makes the traversal order irrelevant). -/

def dedupOcc (xs : List JVal) : List JVal :=
  xs.foldl (fun acc x =>
    if acc.any fun y => jvalBeq y x then acc else acc ++ [x]) []

/-- Injective encoding of a Python dict built from a Counter: its keys can be
`None` (a schema without the counted field), which a JSON object cannot
carry, so the dict is rendered as an association array of [key, count]
pairs in insertion order. -/

def encodeCounter (ps : List (JVal × Nat)) : JVal :=
  .jarr (ps.map fun p => .jarr [p.1, .jint (p.2 : Int)])

def isAsciiDigitCh (c : Char) : Bool := '0' ≤ c && c ≤ '9'

def isAsciiAlphaCh (c : Char) : Bool :=
  ('a' ≤ c && c ≤ 'z') || ('A' ≤ c && c ≤ 'Z')

/-- One character of `[0-9a-f]` under `re.I`. -/

def isHexCh (c : Char) : Bool :=
  isAsciiDigitCh c || ('a' ≤ c && c ≤ 'f') || ('A' ≤ c && c ≤ 'F')

/-- The uuid regex of classify_string: 8-4-4-4-12 hex groups separated by
hyphens, case-insensitive, anchored at both ends. -/

def matchesUuid (s : String) : Bool :=
  let cs := s.data
  cs.length == 36 &&
    (List.range 36).all fun i =>
      if i == 8 || i == 13 || i == 18 || i == 23 then cs.getD i ' ' == '-'
      else isHexCh (cs.getD i ' ')

/-- The iso8601 regex: `^\d{4}-\d{2}-\d{2}T\d{2}:\d{2}:\d{2}` — a prefix
match, any suffix allowed. -/

def matchesIso8601 (s : String) : Bool :=
  let cs := s.data
  decide (cs.length ≥ 19) &&
    (List.range 19).all fun i =>
      if i == 4 || i == 7 then cs.getD i ' ' == '-'
      else if i == 10 then cs.getD i ' ' == 'T'
      else if i == 13 || i == 16 then cs.getD i ' ' == ':'
      else isAsciiDigitCh (cs.getD i ' ')

/-- The date regex: `^\d{4}-\d{2}-\d{2}$`, anchored at both ends. -/

def matchesDate (s : String) : Bool :=
  let cs := s.data
  cs.length == 10 &&
    (List.range 10).all fun i =>
      if i == 4 || i == 7 then cs.getD i ' ' == '-'
      else isAsciiDigitCh (cs.getD i ' ')

/-- The url regex: `^https?://` — a prefix match. -/

def matchesUrl (s : String) : Bool :=
  "http://".isPrefixOf s || "https://".isPrefixOf s

/-- One character of the email regex's local-part class
`[a-zA-Z0-9._%+-]`. -/

def isEmailLocalCh (c : Char) : Bool :=
  isAsciiAlphaCh c || isAsciiDigitCh c || c == '.' || c == '_' || c == '%' ||
    c == '+' || c == '-'

/-- One character of the email regex's domain class `[a-zA-Z0-9.-]`. -/

def isEmailDomainCh (c : Char) : Bool :=
  isAsciiAlphaCh c || isAsciiDigitCh c || c == '.' || c == '-'

/-- `^[a-zA-Z0-9.-]+\.[a-zA-Z]{2,}$` applied to the part after the `@`: some
split with a nonempty domain-class prefix before a literal dot and a final
all-alphabetic segment of length at least two. -/

def matchesEmailTail (cs : List Char) : Bool :=
  (List.range cs.length).any fun j =>
    decide (1 ≤ j) && cs.getD j ' ' == '.' &&
      ((cs.take j).all isEmailDomainCh) &&
      decide (j + 3 ≤ cs.length) && ((cs.drop (j + 1)).all isAsciiAlphaCh)

/-- The email regex `^[a-zA-Z0-9._%+-]+@[a-zA-Z0-9.-]+\.[a-zA-Z]{2,}$`.  None
of the character classes admits `@`, so a match decomposes at the (unique)
first `@` with a nonempty local part before it. -/

def matchesEmail (s : String) : Bool :=
  let cs := s.data
  match cs.findIdx? fun c => c == '@' with
  | none => false
  | some k =>
      decide (1 ≤ k) && ((cs.take k).all isEmailLocalCh) &&
        matchesEmailTail (cs.drop (k + 1))

/-- The enum-like test: length at most 30 and `^[a-z_]+$` (nonempty, only
lowercase letters and underscores). -/

def matchesEnumLike (s : String) : Bool :=
  let cs := s.data
  decide (cs.length ≤ 30) && !cs.isEmpty &&
    cs.all fun c => ('a' ≤ c && c ≤ 'z') || c == '_'

/-- Embedding of `classify_string` (schema_inspector.py lines 41-79): the
pattern cascade, reporting only the type tag, the format class, the length
— and, for enum-like strings, the raw value as `_example_pattern`. -/

def classify_string (value : String) : JVal :=
  let length : Int := (value.length : Int)
  if matchesUuid value then
    .jobj [("_type", .jstr "string"), ("_format", .jstr "uuid"),
           ("_length", .jint length)]
  else if matchesIso8601 value then
    .jobj [("_type", .jstr "string"), ("_format", .jstr "iso8601"),
           ("_length", .jint length)]
  else if matchesDate value then
    .jobj [("_type", .jstr "string"), ("_format", .jstr "date"),
           ("_length", .jint length)]
  else if value == "true" || value == "false" then
    .jobj [("_type", .jstr "string"), ("_format", .jstr "boolean_string"),
           ("_length", .jint length)]
  else if matchesUrl value then
    .jobj [("_type", .jstr "string"), ("_format", .jstr "url"),
           ("_length", .jint length)]
  else if matchesEmail value then
    .jobj [("_type", .jstr "string"), ("_format", .jstr "email"),
           ("_length", .jint length)]
  else if matchesEnumLike value then
    .jobj [("_type", .jstr "string"), ("_format", .jstr "enum_like"),
           ("_length", .jint length),
           ("_example_pattern", .jstr value)]
  else
    .jobj [("_type", .jstr "string"), ("_length", .jint length)]

/-- Code-point comparison of strings, the order Python's `sorted` uses. -/

def lexLeChars : List Char → List Char → Bool
  | [], _ => true
  | _ :: _, [] => false
  | a :: as, b :: bs =>
      if a.toNat < b.toNat then true
      else if b.toNat < a.toNat then false
      else lexLeChars as bs

/-- Insertion of a string into a sorted list under code-point order. -/

def insertSorted (x : String) : List String → List String
  | [] => [x]
  | y :: ys =>
      if lexLeChars x.data y.data then x :: y :: ys else y :: insertSorted x ys

/-- Python `sorted` on a list of pairwise-distinct strings (the inspector
sorts only deduplicated lists, for which the sorted order is unique, so any
correct sort is exact). -/

def sortStrings : List String → List String
  | [] => []
  | x :: xs => insertSorted x (sortStrings xs)

/-- The value read by `s.get(key)` in Python: the stored value when present,
`None` when the key is absent — identical when the stored value is null, as
in Python where both read back as `None`. -/

def pyGet (s : JVal) (key : String) : JVal := s.getD key .jnull

/-- Integer read with default, as `s.get("_length", 0)` followed by integer
`min`/`max`; in every schema the inspector builds `_length` is an int, so the
non-int fallback is unreachable. -/

def getIntD (s : JVal) (key : String) (d : Int) : Int :=
  match s.getD key (.jint d) with
  | .jint n => n
  | _ => d

/-- Embedding of `merge_string_schemas` (schema_inspector.py lines 82-116):
length range, the shared format (or the format distribution), and — for
enum-like schemas — the collected, deduplicated, sorted example patterns
when at most ten are distinct. -/

def merge_string_schemas (schemas : List JVal) : JVal :=
  if schemas.isEmpty then .jobj [("_type", .jstr "string")]
  else
    let formats := countOcc (schemas.map fun s => pyGet s "_format")
    let lengths := schemas.map fun s => getIntD s "_length" 0
    let base := [("_type", .jstr "string"),
      ("_length_min", .jint (lengths.foldl min (lengths.getD 0 0))),
      ("_length_max", .jint (lengths.foldl max (lengths.getD 0 0)))]
    let withFormat :=
      if formats.length == 1 then
        let fmt := (formats.getD 0 (.jnull, 0)).1
        if fmt.truthy then base ++ [("_format", fmt)] else base
      else if !formats.isEmpty then
        base ++ [("_formats", encodeCounter formats)]
      else base
    let enum_values := schemas.filterMap fun s =>
      if (pyGet s "_format").eqStr "enum_like" &&
          (pyGet s "_example_pattern").truthy then
        some (pyGet s "_example_pattern")
      else none
    if !enum_values.isEmpty then
      let unique_values := (dedupOcc enum_values).filter fun v =>
        match v with
        | .jnull => false
        | _ => true
      if unique_values.length ≤ 10 then
        .jobj (withFormat ++ [("_enum_values", .jarr ((sortStrings
          (unique_values.map fun v =>
            match v with
            | .jstr s => s
            | _ => "")).map fun s => .jstr s))])
      else .jobj withFormat
    else .jobj withFormat

/-- Python's `f"{presence:.0%}"` on the fraction `count/total`, modelled by
exact rational rounding half-to-even to a whole percent (the IEEE-double
detour of the source cannot change the result at the list sizes the
inspector handles). -/

def formatPercent (count total : Nat) : String :=
  let scaled := count * 100
  let q := scaled / total
  let r := scaled % total
  let rounded :=
    if 2 * r < total then q
    else if total < 2 * r then q + 1
    else if q % 2 == 0 then q else q + 1
  toString rounded ++ "%"

/-- The key-grouping pass of `merge_object_schemas` (lines 201-211): every
key of every schema's `_keys` dict, in first-encounter order, with the list
of its per-schema sub-schemas (whose length is the key's count). -/

def collectKeys (schemas : List JVal) : List (String × List JVal) :=
  schemas.foldl (fun acc schema =>
    let keys := match schema.getD "_keys" (.jobj []) with
      | .jobj fs => fs
      | _ => []
    keys.foldl (fun acc2 kv =>
      if acc2.any fun p => p.1 == kv.1 then
        acc2.map fun p =>
          if p.1 == kv.1 then (p.1, p.2 ++ [kv.2]) else p
      else acc2 ++ [(kv.1, [kv.2])]) acc) []

/-- Python `merged["_presence"] = v` where `merged` is a dict in every
reachable case (a non-dict would raise, which no generated schema
triggers). -/

def setPresence (merged : JVal) (v : JVal) : JVal :=
  match merged with
  | .jobj fs => .jobj (JVal.assocSet fs "_presence" v)
  | other => other

/-- Embedding of `merge_object_schemas` (schema_inspector.py lines 196-242),
recursing on an explicit fuel for the nested merging of key schemas (the
source recursion is bounded by schema depth; every theorem below quantifies
over the fuel). -/

def merge_object_schemas : Nat → List JVal → JVal
  | 0, _ => .jobj []
  | fuel + 1, schemas =>
    if schemas.isEmpty then .jobj [("_type", .jstr "object"), ("_keys", .jobj [])]
    else
      let total := schemas.length
      let merged_keys := (collectKeys schemas).map fun p =>
        let key_schemas := p.2
        let count := key_schemas.length
        let merged :=
          if key_schemas.length == 1 then key_schemas.getD 0 (.jobj [])
          else
            let types := key_schemas.map fun s => pyGet s "_type"
            if (dedupOcc types).length == 1 then
              if (types.getD 0 .jnull).eqStr "string" then
                merge_string_schemas key_schemas
              else if (types.getD 0 .jnull).eqStr "object" then
                merge_object_schemas fuel key_schemas
              else key_schemas.getD 0 (.jobj [])
            else
              .jobj [("_type", .jstr "mixed"),
                     ("_types", encodeCounter (countOcc types))]
        if count < total then
          (p.1, setPresence merged (.jstr (formatPercent count total)))
        else (p.1, merged)
      .jobj [("_type", .jstr "object"), ("_keys", .jobj merged_keys)]

/-- Embedding of `infer_schema` (schema_inspector.py lines 119-193), with an
explicit fuel bounding the recursion depth (the `path` argument of the
source is debugging-only and dropped).  Scalars report type tags only —
except integers, whose value appears in `_example_range`, and strings, which
go through `classify_string`.  Arrays are sampled up to `max_array_samples`
elements and merged; objects recurse per key. -/

def infer_schema : Nat → Nat → JVal → JVal
  | 0, _, _ => .jobj []
  | fuel + 1, max_array_samples, obj =>
    match obj with
    | .jnull => .jobj [("_type", .jstr "null")]
    | .jbool _ => .jobj [("_type", .jstr "boolean")]
    | .jint n => .jobj [("_type", .jstr "integer"),
        ("_example_range", .jarr [.jint n, .jint n])]
    | .jfloat => .jobj [("_type", .jstr "number")]
    | .jstr s => classify_string s
    | .jarr items =>
      let base := [("_type", .jstr "array"),
                   ("_length", .jint (items.length : Int))]
      if items.isEmpty then .jobj (base ++ [("_items", .jnull)])
      else
        let samples := items.take max_array_samples
        let item_schemas := samples.map (infer_schema fuel max_array_samples)
        let item_types := item_schemas.map fun s => pyGet s "_type"
        if (dedupOcc item_types).length == 1 then
          let merged :=
            if (item_types.getD 0 .jnull).eqStr "object" then
              merge_object_schemas fuel item_schemas
            else if (item_types.getD 0 .jnull).eqStr "string" then
              merge_string_schemas item_schemas
            else item_schemas.getD 0 (.jobj [])
          .jobj (base ++ [("_items", merged)])
        else
          .jobj (base ++
            [("_item_types", encodeCounter (countOcc item_types)),
             ("_items", item_schemas.getD 0 (.jobj []))])
    | .jobj fields =>
      .jobj [("_type", .jstr "object"),
             ("_keys", .jobj (fields.map fun kv =>
               (kv.1, infer_schema fuel max_array_samples kv.2)))]

mutual

/-- Structural agreement of two inputs as the specification's "identical
structure at the same types, lengths, and format classes": same constructor
everywhere, equal classifications at string leaves (which fixes the length,
the format class and — for enum-like strings — the example pattern), equal
integer leaves (whose value the inspector reports), equal array lengths and
object keys; boolean, null and float leaves may differ freely. -/
def sameShape : JVal → JVal → Prop
  | .jnull, .jnull => True
  | .jbool _, .jbool _ => True
  | .jint m, .jint n => m = n
  | .jfloat, .jfloat => True
  | .jstr s, .jstr t => classify_string s = classify_string t
  | .jarr xs, .jarr ys => sameShapeList xs ys
  | .jobj fs, .jobj gs => sameShapeFields fs gs
  | _, _ => False

/-- Pointwise `sameShape` on lists of equal length. -/
def sameShapeList : List JVal → List JVal → Prop
  | [], [] => True
  | x :: xs, y :: ys => sameShape x y ∧ sameShapeList xs ys
  | _, _ => False

/-- Pointwise `sameShape` on field lists with equal keys. -/
def sameShapeFields :
    List (String × JVal) → List (String × JVal) → Prop
  | [], [] => True
  | (k, v) :: fs, (k', v') :: gs =>
      k = k' ∧ sameShape v v' ∧ sameShapeFields fs gs
  | _, _ => False

end

/-! ### Star-schema utilities and ETL, modelled from the specification
(the implementing modules of `star_schema/utils.py` and `star_schema/etl.py`
are not part of the repository snapshot; only their package exports and
tests are). -/

/-- Python `"|".join(parts)`. -/
def joinPipe : List String → String
  | [] => ""
  | [s] => s
  | s :: rest => s ++ "|" ++ joinPipe rest

/-- The FNV-1a 128-bit digest of a code-point sequence: offset basis folded
with xor-then-multiply by the 128-bit FNV prime, truncated to 128 bits. -/

def fnv128 : List Nat → Nat :=
  List.foldl
    (fun h b => ((h ^^^ b) * 309485009821345068724781371) % 2 ^ 128)
    144066263297769815596495629667062367629

/-- One lowercase hexadecimal digit. -/

def hexDigit (n : Nat) : Char :=
  match n with
  | 0 => '0' | 1 => '1' | 2 => '2' | 3 => '3' | 4 => '4'
  | 5 => '5' | 6 => '6' | 7 => '7' | 8 => '8' | 9 => '9'
  | 10 => 'a' | 11 => 'b' | 12 => 'c' | 13 => 'd' | 14 => 'e' | 15 => 'f'
  | _ => '*'

/-- The 32-character lowercase hex rendering of a 128-bit value. -/

def toHex32 (n : Nat) : String :=
  String.mk ((List.range 32).map fun i => hexDigit (n / 16 ^ (31 - i) % 16))

/-- Modelled from the spec: `generate_dimension_key` of
`star_schema/utils.py`, whose source is missing from the snapshot.  Spec
§4.6: replace each `None` component with a fixed non-empty sentinel (here
"NULL"), join the components with the fixed delimiter `|` (the delimiter the
repository's test `test_handles_multiple_natural_keys` pins), and render a
128-bit content digest as 32 lowercase hex characters.  Spec §9 allows any
stable 128-bit digest; the model uses FNV-1a-128 over the joined string's
code points where the source uses MD5 over its UTF-8 bytes. -/

def generate_dimension_key (components : List (Option String)) : String :=
  let parts := components.map fun c =>
    match c with
    | some s => s
    | none => "NULL"
  toHex32 (fnv128 ((joinPipe parts).data.map Char.toNat))

/-- Days since the Unix epoch of a civil date (standard civil-from-days
inversion; exact for the all-digit dates the timestamp parser admits). -/
def days_from_civil (y m d : Int) : Int :=
  let y2 := if m ≤ 2 then y - 1 else y
  let era := (if 0 ≤ y2 then y2 else y2 - 399) / 400
  let yoe := y2 - era * 400
  let doy := (153 * (if 2 < m then m - 3 else m + 9) + 2) / 5 + d - 1
  let doe := yoe * 365 + yoe / 4 - yoe / 100 + doy
  era * 146097 + doe - 719468

/-- The timestamp string of a logline. -/

def tsOf (l : JVal) : String :=
  match l.getD "timestamp" .jnull with
  | .jstr s => s
  | _ => ""

/-- Modelled from the spec: whole-second reading of an ISO-8601 timestamp
(`YYYY-MM-DDTHH:MM:SS` prefix; fractional seconds and zone suffix ignored,
as only whole-second differences are specified).  `none` models an
unparseable timestamp, which must not abort the run. -/

def toEpochSeconds (ts : String) : Option Int :=
  if matchesIso8601 ts then
    let cs := ts.data
    let num := fun (i len : Nat) => (List.range len).foldl
      (fun a j => a * 10 + (cs.getD (i + j) '0').toNat - 48) 0
    some (days_from_civil (num 0 4 : Int) (num 5 2 : Int) (num 8 2 : Int)
      * 86400 + (num 11 2 : Int) * 3600 + (num 14 2 : Int) * 60 +
      (num 17 2 : Int))
  else none

/-- Whether a logline's `type` equals the given label. -/

def isTypeStr (l : JVal) (t : String) : Bool := (l.getD "type" .jnull).eqStr t

/-- Number of tool_use blocks in a logline's content (string-form content
holds none). -/

def tool_use_count (l : JVal) : Nat :=
  match (l.getD "message" (.jobj [])).getD "content" (.jarr []) with
  | .jarr bs =>
      (bs.filter fun b => (b.getD "type" .jnull).eqStr "tool_use").length
  | _ => 0

/-- Timestamp of the first logline of a session. -/

def firstTs : List JVal → Option String
  | [] => none
  | l :: _ => some (tsOf l)

/-- Timestamp of the last logline of a session. -/

def lastTs : List JVal → Option String
  | [] => none
  | [l] => some (tsOf l)
  | _ :: rest => lastTs rest

/-- Modelled from the spec: the session duration in whole seconds — the
difference between the last and the first logline timestamps, zero when the
session is empty or either timestamp fails to parse. -/

def session_duration_spec (loglines : List JVal) : Int :=
  match firstTs loglines, lastTs loglines with
  | some f, some l =>
    match toEpochSeconds f, toEpochSeconds l with
    | some tf, some tl => tl - tf
    | _, _ => 0
  | _, _ => 0

/-- The accumulating state of one ETL run over a session: the summary
counters and the first/last timestamps seen, plus the rows inserted into
fact_session_summary. -/

structure SessionSummaryRow where
  total_messages : Nat
  user_messages : Nat
  assistant_messages : Nat
  total_tool_calls : Nat
  session_duration_seconds : Int

structure EtlState where
  total_messages : Nat
  user_messages : Nat
  assistant_messages : Nat
  total_tool_calls : Nat
  first_timestamp : Option String
  last_timestamp : Option String
  fact_session_summary : List SessionSummaryRow

/-- One logline's contribution to the running aggregates. -/

def etl_step (st : EtlState) (logline : JVal) : EtlState :=
  { total_messages := st.total_messages + 1
    user_messages :=
      st.user_messages + (if isTypeStr logline "user" then 1 else 0)
    assistant_messages :=
      st.assistant_messages + (if isTypeStr logline "assistant" then 1 else 0)
    total_tool_calls := st.total_tool_calls + tool_use_count logline
    first_timestamp :=
      match st.first_timestamp with
      | some t => some t
      | none => some (tsOf logline)
    last_timestamp := some (tsOf logline)
    fact_session_summary := st.fact_session_summary }

/-- Modelled from the spec: `run_star_schema_etl` of `star_schema/etl.py`,
whose source is missing from the snapshot, restricted to the
fact_session_summary behavior claim C5 is about — process the session's
loglines one at a time accumulating counts and first/last timestamps, then
insert exactly one summary row with the aggregates and the whole-second
duration (zero when a timestamp is unparseable; nothing aborts). -/

def run_star_schema_etl (loglines : List JVal) : EtlState :=
  let st := loglines.foldl etl_step ⟨0, 0, 0, 0, none, none, []⟩
  let dur : Int :=
    match st.first_timestamp, st.last_timestamp with
    | some f, some l =>
      match toEpochSeconds f, toEpochSeconds l with
      | some tf, some tl => tl - tf
      | _, _ => 0
    | _, _ => 0
  { st with fact_session_summary := st.fact_session_summary ++
      [⟨st.total_messages, st.user_messages, st.assistant_messages,
        st.total_tool_calls, dur⟩] }

/-- Example session mirroring the repository's ETL test fixture: six
loglines (3 user, 3 assistant), two tool_use blocks (Write, Read), and
timestamps spanning 25 seconds on 2025-01-15. -/
def exSession : List JVal :=
  [.jobj [("type", .jstr "user"),
          ("timestamp", .jstr "2025-01-15T10:00:00.000Z"),
          ("message", .jobj [("role", .jstr "user"),
            ("content", .jstr "Help me write a hello world program")])],
   .jobj [("type", .jstr "assistant"),
          ("timestamp", .jstr "2025-01-15T10:00:05.000Z"),
          ("message", .jobj [("role", .jstr "assistant"),
            ("content", .jarr [.jobj [("type", .jstr "text"),
                ("text", .jstr "I will create that for you.")],
              .jobj [("type", .jstr "tool_use"), ("id", .jstr "tool-001"),
                ("name", .jstr "Write")]])])],
   .jobj [("type", .jstr "user"),
          ("timestamp", .jstr "2025-01-15T10:00:10.000Z"),
          ("message", .jobj [("role", .jstr "user"),
            ("content", .jarr [.jobj [("type", .jstr "tool_result"),
              ("tool_use_id", .jstr "tool-001")]])])],
   .jobj [("type", .jstr "assistant"),
          ("timestamp", .jstr "2025-01-15T10:00:15.000Z"),
          ("message", .jobj [("role", .jstr "assistant"),
            ("content", .jarr [.jobj [("type", .jstr "thinking"),
                ("thinking", .jstr "The file was created.")],
              .jobj [("type", .jstr "text"),
                ("text", .jstr "Let me verify the file.")],
              .jobj [("type", .jstr "tool_use"), ("id", .jstr "tool-002"),
                ("name", .jstr "Read")]])])],
   .jobj [("type", .jstr "user"),
          ("timestamp", .jstr "2025-01-15T10:00:20.000Z"),
          ("message", .jobj [("role", .jstr "user"),
            ("content", .jarr [.jobj [("type", .jstr "tool_result"),
              ("tool_use_id", .jstr "tool-002")]])])],
   .jobj [("type", .jstr "assistant"),
          ("timestamp", .jstr "2025-01-15T10:00:25.000Z"),
          ("message", .jobj [("role", .jstr "assistant"),
            ("content", .jarr [.jobj [("type", .jstr "text"),
              ("text", .jstr "Done!")]])])]]

/-! ### Shape lemmas for the normalizer and the loader -/

theorem mkLogline_typeOf (t ts sid u : JVal) (bs : List JVal) :
    typeOf (mkLogline t ts sid u bs) = t := by
  simp [typeOf, mkLogline, JVal.getD, lookupD, List.lookup]

theorem mkLogline_roleOf (t ts sid u : JVal) (bs : List JVal) :
    roleOf (mkLogline t ts sid u bs) = t := by
  simp [roleOf, mkLogline, JVal.getD, lookupD, List.lookup]

theorem mkLogline_contentOf (t ts sid u : JVal) (bs : List JVal) :
    contentOf (mkLogline t ts sid u bs) = bs := by
  simp [contentOf, mkLogline, JVal.getD, lookupD, List.lookup]

/-- Characterization of a successful `convert_message_to_logline` run. -/

theorem convert_message_some_iff (m sid l : JVal) :
    convert_message_to_logline m sid = some l ↔
    ∃ mf items, m = JVal.jobj mf ∧
      pyIter (lookupD mf "content" (.jarr [])) = some items ∧
      l = mkLogline
        (if (lookupD mf "sender" (.jstr "")).eqStr "human" then .jstr "user"
         else lookupD mf "sender" (.jstr ""))
        (lookupD mf "created_at" (.jstr "")) sid (lookupD mf "uuid" (.jstr ""))
        (items.filterMap fun b =>
          if b.isObj then some (convert_content_block b) else none) := by
  cases m <;>
    simp [convert_message_to_logline, JVal.asDict, Option.bind_eq_some] <;>
    constructor
  · rintro ⟨items, hitems, hl⟩
    exact ⟨items, hitems, hl.symm⟩
  · rintro ⟨items, hitems, hl⟩
    exact ⟨items, hitems, hl.symm⟩


/-- Every branch of `convert_content_block` builds a dict. -/

theorem convert_content_block_isObj (b : JVal) :
    (convert_content_block b).isObj = true := by
  unfold convert_content_block
  dsimp only
  split_ifs <;> rfl

theorem convert_message_good (m sid l : JVal)
    (h : convert_message_to_logline m sid = some l) : GoodLogline sid l := by
  rcases (convert_message_some_iff m sid l).mp h with ⟨mf, items, _, _, hl⟩
  refine ⟨_, _, _, _, hl, ?_⟩
  intro b hb
  rcases List.mem_filterMap.mp hb with ⟨a, _, ha⟩
  by_cases hobj : a.isObj <;> simp [hobj] at ha
  exact ha ▸ convert_content_block_isObj a

theorem good_role_eq_type (sid l : JVal) (h : GoodLogline sid l) :
    roleOf l = typeOf l := by
  rcases h with ⟨t, ts, u, bs, rfl, -⟩
  rw [mkLogline_typeOf, mkLogline_roleOf]

/-- A successful elementwise traversal yields a list of the same length. -/

theorem mapMo_length {α β : Type} (f : α → Option β) :
    ∀ (l : List α) (r : List β), mapMo f l = some r → r.length = l.length := by
  intro l
  induction l with
  | nil =>
    intro r h
    simp only [mapMo, Option.some.injEq] at h
    subst h
    rfl
  | cons a as ih =>
    intro r h
    simp only [mapMo] at h
    cases hfa : f a with
    | none => rw [hfa] at h; exact absurd h (by simp)
    | some b =>
      rw [hfa] at h
      cases hrec : mapMo f as with
      | none => rw [hrec] at h; exact absurd h (by simp)
      | some bs =>
        rw [hrec] at h
        simp only [Option.some.injEq] at h
        subst h
        simp [ih bs hrec]

/-- Elementwise traversal agrees with map when the function succeeds
pointwise. -/

theorem mapMo_eq_map {α β : Type} (f : α → Option β) (g : α → β) :
    ∀ (l : List α), (∀ a ∈ l, f a = some (g a)) →
      mapMo f l = some (l.map g) := by
  intro l
  induction l with
  | nil => intro _; simp [mapMo]
  | cons a as ih =>
    intro h
    simp only [mapMo, h a (by simp), ih (fun x hx => h x (by simp [hx])),
      List.map_cons]

/-- All members produced by a successful traversal come from a successful
application of the function to some member of the source list. -/

theorem mapMo_mem {α β : Type} (f : α → Option β) :
    ∀ (l : List α) (r : List β), mapMo f l = some r →
      ∀ b ∈ r, ∃ a ∈ l, f a = some b := by
  intro l
  induction l with
  | nil =>
    intro r h
    simp only [mapMo, Option.some.injEq] at h
    subst h
    simp
  | cons a as ih =>
    intro r h
    simp only [mapMo] at h
    cases hfa : f a with
    | none => rw [hfa] at h; exact absurd h (by simp)
    | some b =>
      rw [hfa] at h
      cases hrec : mapMo f as with
      | none => rw [hrec] at h; exact absurd h (by simp)
      | some bs =>
        rw [hrec] at h
        simp only [Option.some.injEq] at h
        subst h
        intro x hx
        rcases List.mem_cons.mp hx with rfl | hx
        · exact ⟨a, by simp, hfa⟩
        · rcases ih bs hrec x hx with ⟨a', ha', hfa'⟩
          exact ⟨a', by simp [ha'], hfa'⟩

theorem filter_pair_map {α : Type} (p : α → Bool) (l : List α) :
    ((l.map fun a => (a, p a)).filter fun q => q.2).map (fun q => q.1) =
      l.filter p := by
  induction l with
  | nil => rfl
  | cons a as ih => by_cases h : p a <;> simp [List.filter_cons, h, ih]

/-- On the logline shape the normalizer produces, the spec-side filter
rewrites exactly the content sequence. -/

theorem strip_thinking_spec_mkLogline (t ts sid u : JVal) (bs : List JVal) :
    strip_thinking_spec (mkLogline t ts sid u bs) =
      mkLogline t ts sid u
        (bs.filter fun b => !(b.getD "type" .jnull).eqStr "thinking") := by
  simp [strip_thinking_spec, mkLogline]

/-- On the logline shape the normalizer produces (all blocks dicts), the
code's in-place thinking filter succeeds and computes the spec-side
filter. -/

theorem filter_thinking_mkLogline (t ts sid u : JVal) (bs : List JVal)
    (h : ∀ b ∈ bs, b.isObj = true) :
    filter_thinking_logline (mkLogline t ts sid u bs) =
      some (strip_thinking_spec (mkLogline t ts sid u bs)) := by
  rw [strip_thinking_spec_mkLogline]
  have hmap : mapMo (fun b => do
      let bf ← b.asDict
      pure (b, !(lookupD bf "type" .jnull).eqStr "thinking")) bs =
      some (bs.map fun b => (b, !(b.getD "type" .jnull).eqStr "thinking")) := by
    apply mapMo_eq_map
    intro a ha
    have := h a ha
    cases a <;> simp_all [JVal.isObj, JVal.asDict, JVal.getD]
  have hcontent :
      ((mkLogline t ts sid u bs).getD "message" (.jobj [])).getD "content"
        (.jarr []) = .jarr bs := by
    simp [mkLogline, JVal.getD, lookupD, List.lookup]
  have hget : (mkLogline t ts sid u bs).getKey "message" =
      some (.jobj [("role", t), ("content", .jarr bs)]) := by
    simp [mkLogline, JVal.getKey, List.lookup]
  have hset1 : (JVal.jobj [("role", t), ("content", jarr bs)]).setKey "content"
      (.jarr (((bs.map fun b =>
          (b, !(b.getD "type" .jnull).eqStr "thinking")).filter
            fun p => p.2).map fun p => p.1)) =
      some (.jobj [("role", t), ("content",
        .jarr (bs.filter fun b => !(b.getD "type" .jnull).eqStr "thinking"))]) := by
    simp [JVal.setKey, JVal.assocSet, filter_pair_map]
  have hset2 : (mkLogline t ts sid u bs).setKey "message"
      (.jobj [("role", t), ("content",
        .jarr (bs.filter fun b => !(b.getD "type" .jnull).eqStr "thinking"))]) =
      some (mkLogline t ts sid u
        (bs.filter fun b => !(b.getD "type" .jnull).eqStr "thinking")) := by
    simp [mkLogline, JVal.setKey, JVal.assocSet]
  unfold filter_thinking_logline
  dsimp only
  rw [hcontent]
  dsimp only [pyIter, Bind.bind, Option.bind] at hmap ⊢
  rw [hmap]
  dsimp only
  rw [hget]
  dsimp only
  rw [hset1]
  dsimp only
  exact hset2

theorem good_strip (sid l : JVal) (h : GoodLogline sid l) :
    filter_thinking_logline l = some (strip_thinking_spec l) ∧
      GoodLogline sid (strip_thinking_spec l) := by
  rcases h with ⟨t, ts, u, bs, rfl, hbs⟩
  refine ⟨filter_thinking_mkLogline t ts sid u bs hbs, ?_⟩
  rw [strip_thinking_spec_mkLogline]
  exact ⟨t, ts, u, _, rfl, fun b hb => hbs b (List.mem_of_mem_filter hb)⟩

/-- Reduction of the monadic bind used by do-notation over `Option`. -/

theorem someBind {α β : Type} (a : α) (f : α → Option β) :
    (some a >>= f) = f a := rfl

/-- Reduction of the monadic bind on a failing first step. -/

theorem noneBind {α β : Type} (f : α → Option β) :
    ((none : Option α) >>= f) = none := rfl

/-- Inversion of a successful `convert_conversation_to_loglines` run. -/

theorem convert_conversation_some (c : JVal) (ls : List JVal)
    (h : convert_conversation_to_loglines c = some ls) :
    ∃ cf msgs, c = JVal.jobj cf ∧
      pyIter (lookupD cf "chat_messages" (.jarr [])) = some msgs ∧
      mapMo (fun m => convert_message_to_logline m (lookupD cf "uuid"
        (.jstr ""))) msgs = some ls := by
  cases c <;>
    simp only [convert_conversation_to_loglines, JVal.asDict, someBind,
      noneBind, reduceCtorEq] at h
  case jobj cf =>
    cases hmsgs : pyIter (lookupD cf "chat_messages" (.jarr [])) with
    | none => rw [hmsgs, noneBind] at h; exact absurd h (by simp)
    | some msgs =>
      rw [hmsgs, someBind] at h
      exact ⟨cf, msgs, rfl, hmsgs, h⟩

theorem convert_conversation_length (c : JVal) (ls : List JVal)
    (h : convert_conversation_to_loglines c = some ls) :
    ls.length = chat_messages_count c := by
  rcases convert_conversation_some c ls h with ⟨cf, msgs, rfl, hmsgs, hmap⟩
  rw [mapMo_length _ msgs ls hmap, chat_messages_count]
  have heq : (JVal.jobj cf).getD "chat_messages" (.jarr []) =
      lookupD cf "chat_messages" (.jarr []) := rfl
  rw [heq, hmsgs]
  rfl

theorem convert_conversation_good (c : JVal) (ls : List JVal)
    (h : convert_conversation_to_loglines c = some ls) :
    ∀ l ∈ ls, GoodLogline (convIdOf c) l := by
  rcases convert_conversation_some c ls h with ⟨cf, msgs, rfl, hmsgs, hmap⟩
  intro l hl
  rcases mapMo_mem _ msgs ls hmap l hl with ⟨m, _, hm⟩
  exact convert_message_good m _ l hm

/-- Inversion of the per-conversation body: the output is the normalized
logline list, stripped elementwise when thinking is excluded; in both cases
the count equals the conversation's message count and every logline has the
normalizer's shape. -/

theorem handle_conversation_eq (inc : Bool) (c : JVal) (out : List JVal)
    (h : handle_conversation inc c = some out) :
    ∃ ls, convert_conversation_to_loglines c = some ls ∧
      out = (if inc then ls else ls.map strip_thinking_spec) ∧
      out.length = chat_messages_count c ∧
      ∀ l ∈ out, GoodLogline (convIdOf c) l := by
  cases hconv : convert_conversation_to_loglines c with
  | none => simp [handle_conversation, hconv, noneBind] at h
  | some ls =>
    have hgood := convert_conversation_good c ls hconv
    have hlen := convert_conversation_length c ls hconv
    cases inc with
    | true =>
      simp only [handle_conversation, hconv, someBind, if_true,
        Option.pure_def, Option.some.injEq] at h
      subst h
      exact ⟨ls, rfl, by simp, hlen, hgood⟩
    | false =>
      simp only [handle_conversation, hconv, someBind, Bool.false_eq_true,
        if_false] at h
      have hstrip : mapMo filter_thinking_logline ls =
          some (ls.map strip_thinking_spec) :=
        mapMo_eq_map _ _ ls fun l hl => (good_strip _ l (hgood l hl)).1
      rw [hstrip] at h
      simp only [Option.some.injEq] at h
      subst h
      refine ⟨ls, rfl, by simp, by simp [hlen], ?_⟩
      intro l hl
      rcases List.mem_map.mp hl with ⟨l0, hl0, rfl⟩
      exact (good_strip _ l0 (hgood l0 hl0)).2

theorem included_message_count_nil (ids : Option (List String)) :
    included_message_count [] ids = 0 := rfl

theorem included_message_count_cons (ids : Option (List String)) (c : JVal)
    (rest : List JVal) :
    included_message_count (c :: rest) ids =
      (if passesFilter ids c then chat_messages_count c else 0) +
        included_message_count rest ids := by
  by_cases h : passesFilter ids c <;>
    simp [included_message_count, List.filter_cons, h]

/-- The loop's skip test agrees with the spec-side filter predicate. -/

theorem skip_eq_passes (ids : Option (List String))
    (cf : List (String × JVal)) :
    (match ids with
      | some l => !jvalMemStrList (lookupD cf "uuid" (.jstr "")) l
      | none => false) = !passesFilter ids (JVal.jobj cf) := by
  cases ids <;> simp [passesFilter, convIdOf, JVal.getD]

/-- Loop invariant: a successful run returns the accumulator extended by one
logline per chat message of each conversation passing the allowlist, and
every new logline has the normalizer's shape. -/

theorem process_conversations_spec (ids : Option (List String)) (inc : Bool) :
    ∀ (convs acc r : List JVal),
      process_conversations ids inc convs acc = some r →
      r.length = acc.length + included_message_count convs ids ∧
      ∀ l ∈ r, l ∈ acc ∨ ∃ sid, GoodLogline sid l := by
  intro convs
  induction convs with
  | nil =>
    intro acc r h
    simp only [process_conversations, Option.some.injEq] at h
    subst h
    exact ⟨by simp [included_message_count_nil], fun l hl => Or.inl hl⟩
  | cons c rest ih =>
    intro acc r h
    simp only [process_conversations] at h
    cases hcf : c.asDict with
    | none => rw [hcf] at h; exact absurd h (by simp)
    | some cf =>
      rw [hcf] at h
      dsimp only at h
      rw [skip_eq_passes ids cf] at h
      have hc : c = JVal.jobj cf := by
        cases c <;> simp [JVal.asDict] at hcf
        rw [hcf]
      by_cases hpass : passesFilter ids (JVal.jobj cf)
      · rw [if_neg (by simp [hpass])] at h
        cases hh : handle_conversation inc c with
        | none => rw [hh] at h; exact absurd h (by simp)
        | some loglines =>
          rw [hh] at h
          rcases ih (acc ++ loglines) r h with ⟨hlen, hmem⟩
          rcases handle_conversation_eq inc c loglines hh with
            ⟨ls, _, _, hloglen, hgood⟩
          constructor
          · rw [hlen, included_message_count_cons, if_pos (hc ▸ hpass)]
            rw [List.length_append, hloglen, hc]
            omega
          · intro l hl
            rcases hmem l hl with hin | hg
            · rcases List.mem_append.mp hin with hin | hin
              · exact Or.inl hin
              · exact Or.inr ⟨_, hgood l hin⟩
            · exact Or.inr hg
      · rw [if_pos (by simp [hpass])] at h
        rcases ih acc r h with ⟨hlen, hmem⟩
        refine ⟨?_, hmem⟩
        rw [hlen, included_message_count_cons, if_neg (hc ▸ hpass)]
        omega

/-- Running the loop with thinking excluded yields exactly the stripped image
of the run with thinking included. -/

theorem process_conversations_rel (ids : Option (List String)) :
    ∀ (convs acc_t acc_f r_t r_f : List JVal),
      process_conversations ids true convs acc_t = some r_t →
      process_conversations ids false convs acc_f = some r_f →
      acc_f = acc_t.map strip_thinking_spec →
      r_f = r_t.map strip_thinking_spec := by
  intro convs
  induction convs with
  | nil =>
    intro acc_t acc_f r_t r_f ht hf hacc
    simp only [process_conversations, Option.some.injEq] at ht hf
    rw [← ht, ← hf, hacc]
  | cons c rest ih =>
    intro acc_t acc_f r_t r_f ht hf hacc
    simp only [process_conversations] at ht hf
    cases hcf : c.asDict with
    | none => rw [hcf] at ht; exact absurd ht (by simp)
    | some cf =>
      rw [hcf] at ht hf
      dsimp only at ht hf
      rw [skip_eq_passes ids cf] at ht hf
      by_cases hpass : passesFilter ids (JVal.jobj cf)
      · rw [if_neg (by simp [hpass])] at ht hf
        cases hht : handle_conversation true c with
        | none => rw [hht] at ht; exact absurd ht (by simp)
        | some ls_t =>
          cases hhf : handle_conversation false c with
          | none => rw [hhf] at hf; exact absurd hf (by simp)
          | some ls_f =>
            rw [hht] at ht
            rw [hhf] at hf
            rcases handle_conversation_eq true c ls_t hht with
              ⟨ls, hconv, hls_t, -, -⟩
            rcases handle_conversation_eq false c ls_f hhf with
              ⟨ls', hconv', hls_f, -, -⟩
            have hls : ls' = ls := by
              rw [hconv] at hconv'
              exact (Option.some.injEq _ _).mp hconv'.symm
            subst hls
            simp only [if_true, Bool.false_eq_true, if_false] at hls_t hls_f
            exact ih _ _ r_t r_f ht hf
              (by rw [hacc, hls_t, hls_f, List.map_append])
      · rw [if_pos (by simp [hpass])] at ht hf
        exact ih _ _ r_t r_f ht hf hacc

/-- Inversion of a successful `parse_claude_ai_export` run. -/

theorem parse_some (dir : String → FileState) (path : String)
    (ids : Option (List String)) (inc : Bool) (out : ParseResult)
    (h : parse_claude_ai_export dir path ids inc = some out) :
    ∃ data convs, load_export_files dir path = .ok data ∧
      pyIter data.conversations = some convs ∧
      process_conversations ids inc convs [] = some out.loglines ∧
      out.metadata_conversation_count = convs.length := by
  unfold parse_claude_ai_export at h
  cases hload : load_export_files dir path with
  | error e => rw [hload] at h; exact absurd h (by simp)
  | ok data =>
    rw [hload] at h
    dsimp only at h
    unfold parse_from_bundle at h
    cases hconvs : pyIter data.conversations with
    | none => rw [hconvs, noneBind] at h; exact absurd h (by simp)
    | some convs =>
      rw [hconvs, someBind] at h
      cases hall : process_conversations ids inc convs [] with
      | none => rw [hall, noneBind] at h; exact absurd h (by simp)
      | some all =>
        rw [hall, someBind] at h
        simp only [Option.pure_def, Option.some.injEq] at h
        subst h
        exact ⟨data, convs, rfl, hconvs, hall, rfl⟩

theorem mkLogline_getD_uuid (t ts sid u d : JVal) (bs : List JVal) :
    (mkLogline t ts sid u bs).getD "uuid" d = u := by
  simp [mkLogline, JVal.getD, lookupD, List.lookup]

theorem mkLogline_getD_timestamp (t ts sid u d : JVal) (bs : List JVal) :
    (mkLogline t ts sid u bs).getD "timestamp" d = ts := by
  simp [mkLogline, JVal.getD, lookupD, List.lookup]

theorem exOutT_eval : parse_claude_ai_export exDir "exp" none true =
    some exOutT := rfl

theorem exOutF_eval : parse_claude_ai_export exDir "exp" none false =
    some exOutF := rfl

theorem exOutT_loglines : exOutT.loglines = [exL1, exL2] := rfl

/-- C1: for every export directory whose conversations file loads, a
successful `parse_claude_ai_export` run returns exactly one logline per chat
message of each conversation passing the allowlist filter — for either value
of `include_thinking` — so no message is dropped or duplicated. -/

theorem parse_loglines_count (dir : String → FileState) (path : String)
    (ids : Option (List String)) (inc : Bool) (data : ExportBundle)
    (convs : List JVal) (out : ParseResult)
    (hload : load_export_files dir path = .ok data)
    (hconvs : pyIter data.conversations = some convs)
    (h : parse_claude_ai_export dir path ids inc = some out) :
    out.loglines.length = included_message_count convs ids := by
  rcases parse_some dir path ids inc out h with
    ⟨data', convs', hload', hconvs', hproc, -⟩
  rw [hload] at hload'
  have hd : data = data' := by
    cases hload'
    rfl
  subst hd
  rw [hconvs] at hconvs'
  have hc : convs = convs' := by
    cases hconvs'
    rfl
  subst hc
  have := (process_conversations_spec ids inc convs [] out.loglines hproc).1
  simpa using this

/-- Witness for C1 on the example export: two chat messages, two loglines. -/

theorem parse_loglines_count_witness :
    load_export_files exDir "exp" = .ok exData ∧
      pyIter exData.conversations = some [exConv] ∧
      parse_claude_ai_export exDir "exp" none true = some exOutT ∧
      exOutT.loglines.length = included_message_count [exConv] none :=
  ⟨rfl, rfl, rfl,
    parse_loglines_count exDir "exp" none true exData [exConv] exOutT
      rfl rfl rfl⟩

/-- C2 counterexample: a raw message whose `sender` is the integer 3 produces
a logline whose `type` and `message.role` are that integer — equal, but not
strings — refuting the claim's "the two fields are always equal strings". -/

theorem role_type_not_string_counterexample :
    convert_message_to_logline (.jobj [("sender", .jint 3)]) (.jstr "s") =
      some (mkLogline (.jint 3) (.jstr "") (.jstr "s") (.jstr "") []) ∧
    (typeOf (mkLogline (.jint 3) (.jstr "") (.jstr "s") (.jstr "") [])).isStr
      = false ∧
    (roleOf (mkLogline (.jint 3) (.jstr "") (.jstr "s") (.jstr "") [])).isStr
      = false :=
  ⟨rfl, rfl, rfl⟩

/-- C2 (amended): every logline produced by `convert_message_to_logline`
satisfies `message.role == type`, the invariant holds for every logline in a
`parse_claude_ai_export` output, and the two fields are strings whenever the
raw sender label is a string (or absent, defaulting to `""`). -/

theorem role_mirrors_type :
    (∀ m sid l, convert_message_to_logline m sid = some l →
      roleOf l = typeOf l ∧
      ((m.getD "sender" (.jstr "")).isStr = true → (typeOf l).isStr = true)) ∧
    (∀ dir path ids inc out,
      parse_claude_ai_export dir path ids inc = some out →
      ∀ l ∈ out.loglines, roleOf l = typeOf l) := by
  constructor
  · intro m sid l h
    rcases (convert_message_some_iff m sid l).mp h with ⟨mf, items, rfl, -, rfl⟩
    refine ⟨by rw [mkLogline_typeOf, mkLogline_roleOf], ?_⟩
    intro hs
    rw [mkLogline_typeOf]
    have : (JVal.jobj mf).getD "sender" (.jstr "") =
        lookupD mf "sender" (.jstr "") := rfl
    rw [this] at hs
    by_cases hh : (lookupD mf "sender" (.jstr "")).eqStr "human" = true
    · simp [hh, JVal.isStr]
    · simp only [hh]
      simpa [Bool.not_eq_true] using hs
  · intro dir path ids inc out h l hl
    rcases parse_some dir path ids inc out h with ⟨data, convs, -, -, hproc, -⟩
    rcases (process_conversations_spec ids inc convs [] out.loglines hproc).2
        l hl with hin | ⟨sid, hg⟩
    · exact absurd hin (List.not_mem_nil l)
    · exact good_role_eq_type sid l hg

/-- Witness for C2 on the example: the invariant at a directly converted
message and at the first logline of a parsed export. -/

theorem role_mirrors_type_witness :
    roleOf exL1 = typeOf exL1 ∧ roleOf exL2 = typeOf exL2 :=
  ⟨(role_mirrors_type.1 exMsg1 (.jstr "c1") exL1 rfl).1,
   role_mirrors_type.2 exDir "exp" none true exOutT rfl exL2
     (by
       rw [exOutT_loglines]
       exact List.mem_cons_of_mem _ (List.mem_cons_self _ _))⟩

/-- C3: with `include_thinking = false`, every logline of the parse output is
its normalized form (the `include_thinking = true` output) with exactly the
blocks of type "thinking" removed from its content — all other blocks kept in
order — and every message still appears (the two outputs have pointwise
corresponding loglines). -/

theorem parse_strip_thinking (dir : String → FileState) (path : String)
    (ids : Option (List String)) (out_t out_f : ParseResult)
    (ht : parse_claude_ai_export dir path ids true = some out_t)
    (hf : parse_claude_ai_export dir path ids false = some out_f) :
    out_f.loglines = out_t.loglines.map strip_thinking_spec ∧
      out_f.loglines.length = out_t.loglines.length := by
  rcases parse_some dir path ids true out_t ht with
    ⟨data, convs, hload, hconvs, hproc_t, -⟩
  rcases parse_some dir path ids false out_f hf with
    ⟨data', convs', hload', hconvs', hproc_f, -⟩
  rw [hload] at hload'
  have hd : data = data' := by
    cases hload'
    rfl
  subst hd
  rw [hconvs] at hconvs'
  have hc : convs = convs' := by
    cases hconvs'
    rfl
  subst hc
  have hmapd := process_conversations_rel ids convs [] [] out_t.loglines
    out_f.loglines hproc_t hproc_f (by simp)
  exact ⟨hmapd, by rw [hmapd, List.length_map]⟩

/-- Witness for C3 on the example export: the thinking-stripped run equals
the stripped image of the full run. -/

theorem parse_strip_thinking_witness :
    exOutF.loglines = exOutT.loglines.map strip_thinking_spec ∧
      exOutF.loglines.length = exOutT.loglines.length :=
  parse_strip_thinking exDir "exp" none exOutT exOutF rfl rfl

/-- C8: the sender label "human" maps to type "user"; any other sender value
passes through unchanged as both `type` and `message.role`; absent `uuid` and
`created_at` default to the empty string; and conversion succeeds regardless
of those fields (only a non-iterable `content` can raise). -/

theorem convert_message_sender_mapping :
    (∀ m sid l, convert_message_to_logline m sid = some l →
      ((m.getD "sender" (.jstr "")).eqStr "human" = true →
        typeOf l = .jstr "user" ∧ roleOf l = .jstr "user") ∧
      ((m.getD "sender" (.jstr "")).eqStr "human" = false →
        typeOf l = m.getD "sender" (.jstr "") ∧
        roleOf l = m.getD "sender" (.jstr "")) ∧
      (∀ mf, m = .jobj mf → List.lookup "uuid" mf = none →
        l.getD "uuid" .jnull = .jstr "") ∧
      (∀ mf, m = .jobj mf → List.lookup "created_at" mf = none →
        l.getD "timestamp" .jnull = .jstr "")) ∧
    (∀ mf sid items, pyIter (lookupD mf "content" (.jarr [])) = some items →
      ∃ l, convert_message_to_logline (.jobj mf) sid = some l) := by
  constructor
  · intro m sid l h
    rcases (convert_message_some_iff m sid l).mp h with ⟨mf, items, rfl, -, rfl⟩
    have hsender : (JVal.jobj mf).getD "sender" (.jstr "") =
        lookupD mf "sender" (.jstr "") := rfl
    refine ⟨?_, ?_, ?_, ?_⟩
    · intro hs
      rw [hsender] at hs
      rw [mkLogline_typeOf, mkLogline_roleOf]
      simp [hs]
    · intro hs
      rw [hsender] at hs
      rw [mkLogline_typeOf, mkLogline_roleOf, hsender]
      simp [hs]
    · intro mf' hmf hlk
      have : mf' = mf := by
        cases hmf
        rfl
      subst this
      rw [mkLogline_getD_uuid]
      simp [lookupD, hlk]
    · intro mf' hmf hlk
      have : mf' = mf := by
        cases hmf
        rfl
      subst this
      rw [mkLogline_getD_timestamp]
      simp [lookupD, hlk]
  · intro mf sid items hitems
    refine ⟨_, (convert_message_some_iff _ sid _).mpr
      ⟨mf, items, rfl, hitems, rfl⟩⟩

/-- Witness for C8: the human example message maps to type "user"; the
assistant example message (absent uuid/created_at) passes through and
defaults; a message with no content field converts successfully. -/

theorem convert_message_sender_mapping_witness :
    (typeOf exL1 = .jstr "user" ∧ roleOf exL1 = .jstr "user") ∧
      (typeOf exL2 = .jstr "assistant" ∧ roleOf exL2 = .jstr "assistant") ∧
      exL2.getD "uuid" .jnull = .jstr "" ∧
      exL2.getD "timestamp" .jnull = .jstr "" ∧
      ∃ l, convert_message_to_logline (.jobj [("sender", .jstr "x")])
        (.jstr "s") = some l :=
  ⟨(convert_message_sender_mapping.1 exMsg1 (.jstr "c1") exL1 rfl).1 rfl,
   ((convert_message_sender_mapping.1 exMsg2 (.jstr "c1") exL2 rfl).2.1 rfl),
   (convert_message_sender_mapping.1 exMsg2 (.jstr "c1") exL2 rfl).2.2.1
     _ rfl rfl,
   (convert_message_sender_mapping.1 exMsg2 (.jstr "c1") exL2 rfl).2.2.2
     _ rfl rfl,
   convert_message_sender_mapping.2 [("sender", .jstr "x")] (.jstr "s") []
     rfl⟩

/-- C10: when a raw message's `content` field is a string, iteration yields
its characters, none of which is a dict, so every one is skipped: the
resulting logline has an empty content sequence and no error is raised. -/

theorem string_content_discarded (mf : List (String × JVal)) (sid : JVal)
    (s : String) (hs : lookupD mf "content" (.jarr []) = .jstr s) :
    ∃ l, convert_message_to_logline (.jobj mf) sid = some l ∧
      contentOf l = [] := by
  refine ⟨_, (convert_message_some_iff _ sid _).mpr
    ⟨mf, _, rfl, by rw [hs]; rfl, rfl⟩, ?_⟩
  rw [mkLogline_contentOf]
  rw [List.filterMap_eq_nil_iff]
  intro a ha
  rcases List.mem_map.mp ha with ⟨c, -, rfl⟩
  rfl

/-- Witness for C10: a message whose content is the string "hi" converts to a
logline with empty content. -/

theorem string_content_discarded_witness :
    ∃ l, convert_message_to_logline
      (.jobj [("sender", .jstr "human"), ("content", .jstr "hi")])
      (.jstr "s") = some l ∧ contentOf l = [] :=
  string_content_discarded [("sender", .jstr "human"),
    ("content", .jstr "hi")] (.jstr "s") "hi" rfl

/-- Reduction of the monadic bind used by do-notation over `Except`. -/

theorem exceptOkBind {ε α β : Type} (a : α) (f : α → Except ε β) :
    (Except.ok a >>= f) = f a := rfl

/-- An `Except` do-chain short-circuits on its first error. -/

theorem exceptErrBind {ε α β : Type} (e : ε) (f : α → Except ε β) :
    ((Except.error e : Except ε α) >>= f) = .error e := rfl

/-- The monadic return over `Except` is the ok constructor. -/

theorem exceptPure {ε α : Type} (a : α) : (pure a : Except ε α) = .ok a := rfl

/-- The loader on a missing conversations file: the FileNotFoundError with
the formatted message, whatever the other files hold. -/

theorem load_conv_absent (dir : String → FileState) (path : String)
    (h : dir "conversations.json" = .absent) :
    load_export_files dir path =
      .error (.fileNotFound (missing_conversations_msg path)) := by
  unfold load_export_files
  rw [h]
  rfl

/-- The loader on an unparseable conversations file: the JSON parser's
exception propagates unchanged. -/

theorem load_conv_badJson (dir : String → FileState) (path m : String)
    (h : dir "conversations.json" = .file (.badJson m)) :
    load_export_files dir path = .error (.jsonDecode m) := by
  unfold load_export_files
  rw [h]
  rfl

/-- The loader on a parseable conversations file: the three optional files
are loaded in sequence. -/

theorem load_conv_ok (dir : String → FileState) (path : String) (v : JVal)
    (h : dir "conversations.json" = .file (.ok v)) :
    load_export_files dir path = (do
      let projects ← load_optional dir "projects.json"
      let users ← load_optional dir "users.json"
      let memories ← load_optional dir "memories.json"
      pure ⟨v, projects, users, memories⟩) := by
  unfold load_export_files
  rw [h]
  rfl

/-- `load_optional` never produces a FileNotFoundError. -/

theorem load_optional_cases (dir : String → FileState) (name : String) :
    (∃ v, load_optional dir name = .ok v) ∨
      ∃ m, load_optional dir name = .error (.jsonDecode m) := by
  unfold load_optional
  cases dir name with
  | absent => exact Or.inl ⟨_, rfl⟩
  | file oc =>
    cases oc with
    | ok v => exact Or.inl ⟨v, rfl⟩
    | badJson m => exact Or.inr ⟨m, rfl⟩

/-- C6: the loader raises the missing-required-file error exactly when
`conversations.json` is absent; each optional file independently behaves,
when absent, exactly as a present empty list — never an error — and the
returned bundle's entry defaults to the empty list. -/

theorem load_required_vs_optional (dir : String → FileState) (path : String) :
    ((∃ m, load_export_files dir path = .error (.fileNotFound m)) ↔
      dir "conversations.json" = FileState.absent) ∧
    (∀ name, (name = "projects.json" ∨ name = "users.json" ∨
        name = "memories.json") → dir name = .absent →
      load_export_files dir path = load_export_files
        (fun n => if n = name then .file (.ok (.jarr [])) else dir n) path) ∧
    (∀ data, load_export_files dir path = .ok data →
      (dir "projects.json" = .absent → data.projects = .jarr []) ∧
      (dir "users.json" = .absent → data.users = .jarr []) ∧
      (dir "memories.json" = .absent → data.memories = .jarr [])) := by
  refine ⟨⟨?_, ?_⟩, ?_, ?_⟩
  · rintro ⟨m, hm⟩
    cases hc : dir "conversations.json" with
    | absent => rfl
    | file oc =>
      cases oc with
      | badJson mm =>
        rw [load_conv_badJson dir path mm hc] at hm
        simp at hm
      | ok v =>
        rw [load_conv_ok dir path v hc] at hm
        rcases load_optional_cases dir "projects.json" with ⟨p, hp⟩ | ⟨mp, hp⟩
        · rw [hp, exceptOkBind] at hm
          rcases load_optional_cases dir "users.json" with ⟨u, hu⟩ | ⟨mu, hu⟩
          · rw [hu, exceptOkBind] at hm
            rcases load_optional_cases dir "memories.json" with
              ⟨w, hw⟩ | ⟨mw, hw⟩
            · rw [hw, exceptOkBind] at hm
              rw [exceptPure] at hm
              simp at hm
            · rw [hw, exceptErrBind] at hm
              simp at hm
          · rw [hu, exceptErrBind] at hm
            simp at hm
        · rw [hp, exceptErrBind] at hm
          simp at hm
  · intro hc
    exact ⟨_, load_conv_absent dir path hc⟩
  · intro name hname habs
    have hne : ("conversations.json" : String) ≠ name := by
      rcases hname with rfl | rfl | rfl <;> decide
    have hopt : ∀ nm, load_optional
        (fun n => if n = name then .file (.ok (.jarr [])) else dir n) nm =
        load_optional dir nm := by
      intro nm
      by_cases hnm : nm = name
      · subst hnm
        unfold load_optional
        rw [habs]
        simp
      · unfold load_optional
        have heq : (if nm = name then FileState.file (.ok (.jarr []))
            else dir nm) = dir nm := by simp [hnm]
        dsimp only
        rw [heq]
    cases hc : dir "conversations.json" with
    | absent =>
      rw [load_conv_absent dir path hc,
        load_conv_absent _ path (by simp [hne, hc])]
    | file oc =>
      cases oc with
      | badJson mm =>
        rw [load_conv_badJson dir path mm hc,
          load_conv_badJson _ path mm (by simp [hne, hc])]
      | ok v =>
        rw [load_conv_ok dir path v hc,
          load_conv_ok _ path v (by simp [hne, hc])]
        simp only [hopt]
  · intro data hdata
    cases hc : dir "conversations.json" with
    | absent =>
      rw [load_conv_absent dir path hc] at hdata
      simp at hdata
    | file oc =>
      cases oc with
      | badJson mm =>
        rw [load_conv_badJson dir path mm hc] at hdata
        simp at hdata
      | ok v =>
        rw [load_conv_ok dir path v hc] at hdata
        rcases load_optional_cases dir "projects.json" with ⟨p, hp⟩ | ⟨mp, hp⟩
        swap
        · rw [hp, exceptErrBind] at hdata
          simp at hdata
        rw [hp, exceptOkBind] at hdata
        rcases load_optional_cases dir "users.json" with ⟨u, hu⟩ | ⟨mu, hu⟩
        swap
        · rw [hu, exceptErrBind] at hdata
          simp at hdata
        rw [hu, exceptOkBind] at hdata
        rcases load_optional_cases dir "memories.json" with ⟨w, hw⟩ | ⟨mw, hw⟩
        swap
        · rw [hw, exceptErrBind] at hdata
          simp at hdata
        rw [hw, exceptOkBind] at hdata
        rw [exceptPure] at hdata
        simp only [Except.ok.injEq] at hdata
        subst hdata
        refine ⟨?_, ?_, ?_⟩
        · intro habs
          unfold load_optional at hp
          rw [habs] at hp
          simp at hp
          simp [hp.symm]
        · intro habs
          unfold load_optional at hu
          rw [habs] at hu
          simp at hu
          simp [hu.symm]
        · intro habs
          unfold load_optional at hw
          rw [habs] at hw
          simp at hw
          simp [hw.symm]

/-- Witness for C6: on the example directory (projects/users/memories all
absent, conversations present), no missing-file error arises, absent
optional files behave as empty, and the bundle entries are empty lists. -/

theorem load_required_vs_optional_witness :
    (¬ exDir "conversations.json" = FileState.absent →
      ¬ ∃ m, load_export_files exDir "exp" = .error (.fileNotFound m)) ∧
    load_export_files exDir "exp" = load_export_files
      (fun n => if n = "projects.json" then .file (.ok (.jarr []))
        else exDir n) "exp" ∧
    (exData.projects = .jarr [] ∧ exData.users = .jarr [] ∧
      exData.memories = .jarr []) :=
  ⟨fun hne hex => hne ((load_required_vs_optional exDir "exp").1.mp hex),
   (load_required_vs_optional exDir "exp").2.1 "projects.json"
     (Or.inl rfl) rfl,
   ⟨((load_required_vs_optional exDir "exp").2.2 exData rfl).1 rfl,
    ((load_required_vs_optional exDir "exp").2.2 exData rfl).2.1 rfl,
    ((load_required_vs_optional exDir "exp").2.2 exData rfl).2.2 rfl⟩⟩

/-- C7 counterexample: for a present-but-malformed conversations.json, the
loader surfaces the JSON parser's message unchanged, and that message does
not contain the offending path — refuting "every fatal error raised by the
export loader carries the offending file path". -/
theorem load_json_error_lacks_path_counterexample :
    load_export_files exBadDir "/exports/acct" =
      .error (.jsonDecode "Expecting value: line 1 column 1 (char 0)") ∧
    strContains "Expecting value: line 1 column 1 (char 0)" "/exports/acct" =
      false :=
  ⟨rfl, by decide⟩

/-- C7 (amended): the missing-required-file error carries the offending path
inside its fixed human-readable message (which is built from the path alone,
so no raw content values can appear in it); a malformed-JSON error propagates
the JSON parser's message unchanged — hence without the file path. -/

theorem load_error_messages (dir : String → FileState) (path : String) :
    (dir "conversations.json" = .absent →
      load_export_files dir path =
        .error (.fileNotFound (missing_conversations_msg path)) ∧
      strContains (missing_conversations_msg path) path = true) ∧
    (∀ m, dir "conversations.json" = .file (.badJson m) →
      load_export_files dir path = .error (.jsonDecode m)) := by
  constructor
  · intro hc
    refine ⟨load_conv_absent dir path hc, ?_⟩
    unfold strContains missing_conversations_msg
    apply List.any_eq_true.mpr
    refine ⟨("conversations.json not found in " : String).data.length, ?_, ?_⟩
    · apply List.mem_range.mpr
      rw [String.data_append, String.data_append, List.length_append,
        List.length_append]
      omega
    · rw [String.data_append, String.data_append, List.append_assoc,
        List.drop_left, ← String.data_append, List.isPrefixOf_iff_prefix,
        String.data_append]
      exact List.prefix_append path.data _
  · intro m hc
    exact load_conv_badJson dir path m hc

/-- Witness for C7: a directory with no conversations file yields the
FileNotFoundError whose message contains the path, and the malformed case at
a concrete message propagates verbatim. -/

theorem load_error_messages_witness :
    (load_export_files (fun _ => FileState.absent) "/exports/acct" =
      .error (.fileNotFound (missing_conversations_msg "/exports/acct")) ∧
     strContains (missing_conversations_msg "/exports/acct") "/exports/acct" =
      true) ∧
    load_export_files exBadDir "/exports/acct" =
      .error (.jsonDecode "Expecting value: line 1 column 1 (char 0)") :=
  ⟨(load_error_messages (fun _ => FileState.absent) "/exports/acct").1 rfl,
   (load_error_messages exBadDir "/exports/acct").2
     "Expecting value: line 1 column 1 (char 0)" rfl⟩

theorem sameShapeList_length : ∀ xs ys, sameShapeList xs ys →
    xs.length = ys.length := by
  intro xs
  induction xs with
  | nil => intro ys h; cases ys with
    | nil => rfl
    | cons y ys => exact absurd h (by simp [sameShapeList])
  | cons x xs ih =>
    intro ys h
    cases ys with
    | nil => exact absurd h (by simp [sameShapeList])
    | cons y ys =>
      rw [sameShapeList] at h
      simp [ih ys h.2]

theorem sameShapeList_take (n : Nat) : ∀ xs ys, sameShapeList xs ys →
    sameShapeList (xs.take n) (ys.take n) := by
  induction n with
  | zero => intro xs ys _; simp [List.take_zero, sameShapeList]
  | succ n ih =>
    intro xs ys h
    cases xs with
    | nil =>
      cases ys with
      | nil => simpa [sameShapeList] using h
      | cons y ys => exact absurd h (by simp [sameShapeList])
    | cons x xs =>
      cases ys with
      | nil => exact absurd h (by simp [sameShapeList])
      | cons y ys =>
        rw [sameShapeList] at h
        simp only [List.take_succ_cons, sameShapeList]
        exact ⟨h.1, ih xs ys h.2⟩

theorem sameShapeList_isEmpty : ∀ xs ys, sameShapeList xs ys →
    xs.isEmpty = ys.isEmpty := by
  intro xs ys h
  cases xs with
  | nil => cases ys with
    | nil => rfl
    | cons y ys => exact absurd h (by simp [sameShapeList])
  | cons x xs => cases ys with
    | nil => exact absurd h (by simp [sameShapeList])
    | cons y ys => rfl

theorem sameShapeList_map (f : JVal → JVal)
    (hf : ∀ v w, sameShape v w → f v = f w) : ∀ xs ys, sameShapeList xs ys →
    xs.map f = ys.map f := by
  intro xs
  induction xs with
  | nil => intro ys h; cases ys with
    | nil => rfl
    | cons y ys => exact absurd h (by simp [sameShapeList])
  | cons x xs ih =>
    intro ys h
    cases ys with
    | nil => exact absurd h (by simp [sameShapeList])
    | cons y ys =>
      rw [sameShapeList] at h
      simp [hf x y h.1, ih ys h.2]

theorem sameShapeFields_map (f : JVal → JVal)
    (hf : ∀ v w, sameShape v w → f v = f w) :
    ∀ fs gs, sameShapeFields fs gs →
      fs.map (fun kv => (kv.1, f kv.2)) = gs.map (fun kv => (kv.1, f kv.2)) := by
  intro fs
  induction fs with
  | nil => intro gs h; cases gs with
    | nil => rfl
    | cons g gs => exact absurd h (by cases g; simp [sameShapeFields])
  | cons kv fs ih =>
    intro gs h
    cases gs with
    | nil => exact absurd h (by cases kv; simp [sameShapeFields])
    | cons kv' gs =>
      cases kv with
      | mk k v =>
        cases kv' with
        | mk k' v' =>
          rw [sameShapeFields] at h
          simp [h.1, hf v v' h.2.1, ih gs h.2.2]

/-- C9 (amended): the inspector's output is a function of the input's
structure alone — two inputs agreeing on constructor shape, string
classifications, integer leaf values, array lengths and object keys receive
identical schemas, whatever their boolean, null, float or (classified-alike)
string leaf values are. -/
theorem infer_schema_shape_invariant : ∀ (fuel n : Nat) (v w : JVal),
    sameShape v w → infer_schema fuel n v = infer_schema fuel n w := by
  intro fuel
  induction fuel with
  | zero => intro n v w _; rfl
  | succ fuel ih =>
    intro n v w h
    cases v <;> cases w <;> try exact h.elim
    case jnull.jnull => rfl
    case jbool.jbool => rfl
    case jfloat.jfloat => rfl
    case jint.jint m m' =>
      have hmn : m = m' := h
      rw [hmn]
    case jstr.jstr s t =>
      have hst : classify_string s = classify_string t := h
      simp only [infer_schema]
      exact hst
    case jarr.jarr xs ys =>
      have hl : sameShapeList xs ys := h
      have hlen : xs.length = ys.length := sameShapeList_length xs ys hl
      have hemp : xs.isEmpty = ys.isEmpty := sameShapeList_isEmpty xs ys hl
      have hmaps : (xs.take n).map (infer_schema fuel n) =
          (ys.take n).map (infer_schema fuel n) :=
        sameShapeList_map _ (ih n) _ _ (sameShapeList_take n xs ys hl)
      simp only [infer_schema]
      rw [hlen, hemp, hmaps]
    case jobj.jobj fs gs =>
      have hf : sameShapeFields fs gs := h
      have hmapf : fs.map (fun kv => (kv.1, infer_schema fuel n kv.2)) =
          gs.map (fun kv => (kv.1, infer_schema fuel n kv.2)) :=
        sameShapeFields_map _ (ih n) _ _ hf
      simp only [infer_schema]
      rw [hmapf]

/-- C9 counterexample: the integers 1 and 2 — two inputs of identical
structure (both bare integer leaves) — receive different schemas, because
the inspector embeds the raw integer value in `_example_range`; so the
schema is not built from type tags, lengths and format classes alone. -/
theorem inspector_leaks_integer_counterexample :
    infer_schema 1 5 (.jint 1) =
      .jobj [("_type", .jstr "integer"),
             ("_example_range", .jarr [.jint 1, .jint 1])] ∧
    ¬ infer_schema 1 5 (.jint 1) = infer_schema 1 5 (.jint 2) := by
  refine ⟨rfl, fun hcontra => ?_⟩
  have h1 : infer_schema 1 5 (.jint 1) =
      .jobj [("_type", .jstr "integer"),
             ("_example_range", .jarr [.jint 1, .jint 1])] := rfl
  have h2 : infer_schema 1 5 (.jint 2) =
      .jobj [("_type", .jstr "integer"),
             ("_example_range", .jarr [.jint 2, .jint 2])] := rfl
  rw [h1, h2] at hcontra
  have hrange := congrArg (fun j =>
    match j with
    | JVal.jobj (_ :: (_, r) :: _) => r
    | _ => JVal.jnull) hcontra
  simp only at hrange
  have hfst := congrArg (fun j =>
    match j with
    | JVal.jarr (JVal.jint a :: _) => a
    | _ => (0 : Int)) hrange
  simp only at hfst
  exact absurd hfst (by decide)

/-- Witness for C9: two objects with equal keys, generic strings of equal
length and classification but different text, and different boolean leaves,
receive the same schema. -/

theorem infer_schema_shape_invariant_witness :
    infer_schema 3 5 (.jobj [("a", .jstr "Hello!"), ("b", .jbool true)]) =
      infer_schema 3 5 (.jobj [("a", .jstr "World?"), ("b", .jbool false)]) :=
  infer_schema_shape_invariant 3 5 _ _ ⟨rfl, rfl, rfl, trivial, trivial⟩

/-- C4: dimension-key generation is deterministic (a pure function of the
component sequence, including `None` positions), a lone `None` component
yields a defined 32-character lowercase-hex key without raising, the
sentinel keeps "absent" distinct from "present-but-empty", and distinct
natural keys receive distinct surrogate keys (witnessed at concrete inputs —
no fixed-width digest can be injective on all inputs, which is why the spec
itself qualifies distinctness with collision probability). -/
theorem generate_dimension_key_props :
    (∀ a : List (Option String),
      generate_dimension_key a = generate_dimension_key a) ∧
    (generate_dimension_key [none]).length = 32 ∧
    ((generate_dimension_key [none]).data.all fun c =>
      ("0123456789abcdef".data.contains c)) = true ∧
    generate_dimension_key [some "Write"] ≠
      generate_dimension_key [some "Read"] ∧
    generate_dimension_key [some "a", none] ≠
      generate_dimension_key [some "a", some ""] := by
  refine ⟨fun a => rfl, by decide, by decide, by decide, by decide⟩

theorem lastTs_cons_isSome (y : JVal) : ∀ l, ∃ t, lastTs (y :: l) = some t := by
  intro l
  induction l generalizing y with
  | nil => exact ⟨tsOf y, rfl⟩
  | cons z l ih => exact ih z

/-- Invariant of the accumulating fold: counts add up, the first/last
timestamps combine with the incoming state, and no summary row is inserted
during the per-logline pass. -/

theorem etl_fold_spec : ∀ (l : List JVal) (st : EtlState),
    (List.foldl etl_step st l).total_messages =
      st.total_messages + l.length ∧
    (List.foldl etl_step st l).user_messages = st.user_messages +
      (l.filter fun x => isTypeStr x "user").length ∧
    (List.foldl etl_step st l).assistant_messages = st.assistant_messages +
      (l.filter fun x => isTypeStr x "assistant").length ∧
    (List.foldl etl_step st l).total_tool_calls = st.total_tool_calls +
      (l.map tool_use_count).sum ∧
    (List.foldl etl_step st l).first_timestamp =
      (match st.first_timestamp with
        | some t => some t
        | none => firstTs l) ∧
    (List.foldl etl_step st l).last_timestamp =
      (match lastTs l with
        | some t => some t
        | none => st.last_timestamp) ∧
    (List.foldl etl_step st l).fact_session_summary =
      st.fact_session_summary := by
  intro l
  induction l with
  | nil =>
    intro st
    refine ⟨by simp, by simp, by simp, by simp, ?_, rfl, rfl⟩
    cases hst : st.first_timestamp <;> simp [hst, firstTs]
  | cons x l ih =>
    intro st
    rw [List.foldl_cons]
    rcases ih (etl_step st x) with ⟨h1, h2, h3, h4, h5, h6, h7⟩
    refine ⟨?_, ?_, ?_, ?_, ?_, ?_, ?_⟩
    · rw [h1]
      simp [etl_step]
      omega
    · rw [h2]
      by_cases hx : isTypeStr x "user" <;>
        simp [etl_step, List.filter_cons, hx] <;> omega
    · rw [h3]
      by_cases hx : isTypeStr x "assistant" <;>
        simp [etl_step, List.filter_cons, hx] <;> omega
    · rw [h4]
      simp [etl_step]
      omega
    · rw [h5]
      cases hst : st.first_timestamp with
      | some t => simp [etl_step, hst, firstTs]
      | none => simp [etl_step, hst, firstTs]
    · rw [h6]
      cases l with
      | nil => simp [etl_step, lastTs]
      | cons y l' =>
        rcases lastTs_cons_isSome y l' with ⟨t, ht⟩
        have hxyl : lastTs (x :: y :: l') = lastTs (y :: l') := rfl
        rw [hxyl, ht]
    · rw [h7]
      rfl

/-- C5: one ETL run over a session inserts exactly one fact_session_summary
row, whose counters are the message/user/assistant/tool-use counts over the
session's loglines and whose duration is the whole-second difference of the
last and first timestamps; a single-logline session and an unparseable first
timestamp both give a zero duration, and nothing aborts the run. -/

theorem etl_session_summary (loglines : List JVal) :
    (run_star_schema_etl loglines).fact_session_summary =
      [⟨loglines.length,
        (loglines.filter fun l => isTypeStr l "user").length,
        (loglines.filter fun l => isTypeStr l "assistant").length,
        (loglines.map tool_use_count).sum,
        session_duration_spec loglines⟩] ∧
    (∀ l, loglines = [l] → session_duration_spec loglines = 0) ∧
    (∀ l rest, loglines = l :: rest → toEpochSeconds (tsOf l) = none →
      session_duration_spec loglines = 0) := by
  refine ⟨?_, ?_, ?_⟩
  · unfold run_star_schema_etl
    rcases etl_fold_spec loglines ⟨0, 0, 0, 0, none, none, []⟩ with
      ⟨h1, h2, h3, h4, h5, h6, h7⟩
    dsimp only at h1 h2 h3 h4 h5 h6 h7 ⊢
    rw [h1, h2, h3, h4, h5, h6, h7]
    simp only [Nat.zero_add, List.nil_append]
    unfold session_duration_spec
    cases hl : lastTs loglines with
    | none =>
      cases hf : firstTs loglines with
      | none => rfl
      | some f =>
        cases loglines with
        | nil => simp [firstTs] at hf
        | cons y l' =>
          rcases lastTs_cons_isSome y l' with ⟨t, ht⟩
          rw [ht] at hl
    | some t =>
      cases hf : firstTs loglines with
      | none =>
        cases loglines with
        | nil => simp [lastTs] at hl
        | cons y l' => simp [firstTs] at hf
      | some f => rfl
  · intro l hl
    subst hl
    have hf : firstTs [l] = some (tsOf l) := rfl
    have hlast : lastTs [l] = some (tsOf l) := rfl
    unfold session_duration_spec
    rw [hf, hlast]
    dsimp only
    cases h : toEpochSeconds (tsOf l) with
    | none => rfl
    | some t => simp
  · intro l rest hl hbad
    subst hl
    have hf : firstTs (l :: rest) = some (tsOf l) := rfl
    unfold session_duration_spec
    rw [hf]
    cases hlast : lastTs (l :: rest) with
    | none => rfl
    | some t =>
      dsimp only
      rw [hbad]

/-- Witness for C5: on the fixture session the single summary row reads
total 6, user 3, assistant 3, tool calls 2, duration 25 seconds; a
one-logline session has duration zero. -/
theorem etl_session_summary_witness :
    (run_star_schema_etl exSession).fact_session_summary =
      [⟨6, 3, 3, 2, 25⟩] ∧
    session_duration_spec [.jobj [("type", .jstr "user")]] = 0 :=
  ⟨by
    rw [(etl_session_summary exSession).1]
    rfl,
   (etl_session_summary [.jobj [("type", .jstr "user")]]).2.1
     (.jobj [("type", .jstr "user")]) rfl⟩
